import Mathlib

/-!
Verification of the prose-core-client messaging pipeline against its
natural-language specification.

The Rust sources are shallowly embedded: ids are strings, timestamps are
integers (seconds), byte strings are lists of naturals, `IndexMap` and
`HashMap` are association lists with the same insert/lookup semantics, and
asynchronous service calls are either inputs (their responses) or outputs
(the requests issued) of the embedded functions.
-/

namespace Prose

/-- Client-assigned message id (`MessageId` / `MessageRemoteId`). -/
abbrev MessageId := String

/-- Server-assigned stanza id (`StanzaId` / `MessageServerId`). -/
abbrev StanzaId := String

/-- A participant (bare user id or MUC occupant id), kept opaque. -/
abbrev ParticipantId := String

/-- An emoji, kept opaque (`id_string!(Emoji)` in the source). -/
abbrev Emoji := String

/-- An attachment, kept opaque: the reducer moves attachments around without
inspecting them. -/
abbrev Attachment := String

/-- A mention, kept opaque. -/
abbrev Mention := String

/-- Encryption metadata attached to a message payload; the reducer only asks
`encryption_info.is_some()`, so the contents stay opaque. -/
abbrev EncryptionInfo := String

/-- `Reaction` from `domain/messaging/models/message.rs`: one emoji plus the
list of participants who reacted with it. (`from` is a Lean keyword, hence
`from_`.) -/
structure Reaction where
  emoji : Emoji
  from_ : List ParticipantId
deriving Repr, DecidableEq

/-- `Body` from `domain/messaging/models/message.rs`. -/
structure Body where
  raw : String
  html : String
deriving Repr, DecidableEq

/-- The logical `Message` produced by the reducer
(`domain/messaging/models/message.rs`). -/
structure Message where
  remote_id : Option MessageId
  server_id : Option StanzaId
  from_ : ParticipantId
  body : Body
  timestamp : Int
  is_read : Bool
  is_edited : Bool
  is_delivered : Bool
  is_transient : Bool
  is_encrypted : Bool
  reactions : List Reaction
  attachments : List Attachment
  mentions : List Mention
deriving Repr, DecidableEq

/-- `MessageLikeId` (`domain/messaging/models/message_like.rs`): a client id
that may be synthesized; synthesized ids carry the `!!` prefix. -/
structure MessageLikeId where
  id : MessageId
deriving Repr, DecidableEq

/-- `starts_with("!!")`, decided on the character list so that it computes
by kernel reduction. -/
def isSynthesizedId (s : String) : Bool :=
  s.data.take 2 = ['!', '!']

/-- `MessageLikeId::into_original_id`: the original id, or `none` for a
generated (`!!`-prefixed) one. -/
def MessageLikeId.into_original_id (i : MessageLikeId) : Option MessageId :=
  if isSynthesizedId i.id then none else some i.id

/-- `MessageLikeBody` (used by `MessageLikePayload::Message`/`Correction`):
raw text, html and mentions. -/
structure MessageLikeBody where
  raw : String
  html : String
  mentions : List Mention
deriving Repr, DecidableEq

/-- `MessageTargetId`: a modifier's target, by client id or by server id. -/
inductive MessageTargetId where
  | remoteId (id : MessageId)
  | serverId (id : StanzaId)
deriving Repr, DecidableEq

/-- `MessageLikePayload` as consumed by `Message::reducing_messages` in
`domain/messaging/models/message.rs` (constructor shapes read off the
reducer's `match` arms and the unit tests in the same file). -/
inductive MessageLikePayload where
  | message (body : MessageLikeBody) (attachments : List Attachment)
      (encryption_info : Option EncryptionInfo) (is_transient : Bool)
  | correction (body : MessageLikeBody) (attachments : List Attachment)
      (encryption_info : Option EncryptionInfo)
  | deliveryReceipt
  | readReceipt
  | reaction (emojis : List Emoji)
  | retraction
  | error (message : String)
deriving Repr, DecidableEq

/-- `MessageLike` (`domain/messaging/models/message_like.rs`): one atomic
event of the append-only log. -/
structure MessageLike where
  id : MessageLikeId
  stanza_id : Option StanzaId
  target : Option MessageTargetId
  to_ : Option String
  from_ : ParticipantId
  timestamp : Int
  payload : MessageLikePayload
deriving Repr, DecidableEq

/-! ### Association lists standing in for `IndexMap` and `HashMap` -/

/-- Lookup in an association list (first matching key wins, as in both
`IndexMap` and `HashMap`, whose keys are unique). -/
def alookup {β : Type} : List (String × β) → String → Option β
  | [], _ => none
  | (k, v) :: rest, key => if k = key then some v else alookup rest key

/-- Insert semantics of `IndexMap::insert` (and, for lookup purposes, of
`HashMap::insert`): replace the value at an existing key in place, else
append the new pair. -/
def aupdate {β : Type} (l : List (String × β)) (k : String) (v : β) :
    List (String × β) :=
  match l with
  | [] => [(k, v)]
  | (k0, v0) :: rest =>
    if k0 = k then (k, v) :: rest else (k0, v0) :: aupdate rest k v

theorem alookup_aupdate_self {β : Type} (l : List (String × β)) (k : String)
    (v : β) : alookup (aupdate l k v) k = some v := by
  induction l with
  | nil => simp [aupdate, alookup]
  | cons hd tl ih =>
    obtain ⟨k0, v0⟩ := hd
    by_cases h : k0 = k
    · simp [aupdate, h, alookup]
    · simp [aupdate, h, alookup, ih]

theorem alookup_aupdate_ne {β : Type} (l : List (String × β)) {k k2 : String}
    (h : k ≠ k2) (v : β) : alookup (aupdate l k v) k2 = alookup l k2 := by
  induction l with
  | nil => simp [aupdate, alookup, h]
  | cons hd tl ih =>
    obtain ⟨k0, v0⟩ := hd
    by_cases h0 : k0 = k
    · subst h0
      simp [aupdate, alookup, h]
    · simp [aupdate, h0, alookup, ih]

/-! ### The reducer: `Message::reducing_messages` -/

/-- The logical message built in pass one for a `Message` payload
(lines 100–123 of `message.rs`). -/
def mkMessage (msg : MessageLike) (body : MessageLikeBody)
    (attachments : List Attachment) (encryption_info : Option EncryptionInfo)
    (is_private : Bool) : Message :=
  { remote_id := msg.id.into_original_id
    server_id := msg.stanza_id
    from_ := msg.from_
    body := { raw := body.raw, html := body.html }
    timestamp := msg.timestamp
    is_read := false
    is_edited := false
    is_delivered := false
    is_transient := is_private
    is_encrypted := encryption_info.isSome
    reactions := []
    attachments := attachments
    mentions := body.mentions }

/-- The logical message built in pass one for an `Error` payload
(lines 128–151 of `message.rs`). -/
def mkErrorMessage (msg : MessageLike) (err : String) : Message :=
  { remote_id := msg.id.into_original_id
    server_id := msg.stanza_id
    from_ := msg.from_
    body := { raw := err, html := err }
    timestamp := msg.timestamp
    is_read := false
    is_edited := false
    is_delivered := false
    is_transient := false
    is_encrypted := false
    reactions := []
    attachments := []
    mentions := [] }

/-- State of pass one: the ordered message map, the stanza-id → client-id
map, and the buffered modifiers. -/
structure Pass1State where
  messages_map : List (MessageId × Option Message)
  stanza_to_id_map : List (StanzaId × MessageId)
  modifiers : List MessageLike

/-- One step of the first pass over the input (lines 90–155 of
`message.rs`). -/
def pass1Step (acc : Pass1State) (msg : MessageLike) : Pass1State :=
  match msg.payload with
  | .message body attachments encryption_info is_transient =>
    let message := mkMessage msg body attachments encryption_info is_transient
    { messages_map := aupdate acc.messages_map msg.id.id (some message)
      stanza_to_id_map :=
        match message.server_id with
        | some stanza_id => aupdate acc.stanza_to_id_map stanza_id msg.id.id
        | none => acc.stanza_to_id_map
      modifiers := acc.modifiers }
  | .error err =>
    let message := mkErrorMessage msg err
    { messages_map := aupdate acc.messages_map msg.id.id (some message)
      stanza_to_id_map :=
        match message.server_id with
        | some stanza_id => aupdate acc.stanza_to_id_map stanza_id msg.id.id
        | none => acc.stanza_to_id_map
      modifiers := acc.modifiers }
  | _ => { acc with modifiers := acc.modifiers ++ [msg] }

/-- Pass one of the reducer. -/
def pass1 (messages : List MessageLike) : Pass1State :=
  messages.foldl pass1Step ⟨[], [], []⟩

/-- Remove the first occurrence of an emoji. -/
def eraseFirst : List Emoji → Emoji → List Emoji
  | [], _ => []
  | x :: xs, e => if x = e then xs else x :: eraseFirst xs e

/-- Remove the last occurrence of an emoji: `emojis.iter().rev()` finds the
match from the end and `emojis.remove(idx)` deletes it (lines 204–220 of
`message.rs`). -/
def removeLast (l : List Emoji) (e : Emoji) : List Emoji :=
  (eraseFirst l.reverse e).reverse

/-- The `'outer` loop of reaction folding (lines 203–225 of `message.rs`):
walk the existing reactions; a reaction whose emoji still occurs in the
pending emoji list absorbs the actor and consumes the last such occurrence,
any other reaction loses the actor. Returns the rewritten reactions and the
emojis left over. -/
def applyToReactions (actor : ParticipantId) :
    List Reaction → List Emoji → List Reaction × List Emoji
  | [], emojis => ([], emojis)
  | r :: rest, emojis =>
    if r.emoji ∈ emojis then
      ({ r with
          from_ := if actor ∈ r.from_ then r.from_ else r.from_ ++ [actor] }
          :: (applyToReactions actor rest (removeLast emojis r.emoji)).1,
        (applyToReactions actor rest (removeLast emojis r.emoji)).2)
    else
      ({ r with from_ := r.from_.filter (fun f => f ≠ actor) }
          :: (applyToReactions actor rest emojis).1,
        (applyToReactions actor rest emojis).2)

/-- Full reaction folding for one `Reaction` modifier (lines 199–239 of
`message.rs`): rewrite existing reactions, drop the ones whose author list
became empty, then append a fresh reaction for every left-over emoji. -/
def applyReaction (message : Message) (actor : ParticipantId)
    (emojis : List Emoji) : Message :=
  let res := applyToReactions actor message.reactions emojis
  { message with
    reactions :=
      res.1.filter (fun r => ¬ r.from_.isEmpty)
        ++ res.2.map (fun e => { emoji := e, from_ := [actor] }) }

/-- Target resolution for a modifier (lines 158–172 of `message.rs`): a
remote id is used as-is, a server id goes through the stanza map; `none`
means the modifier is skipped. -/
def resolveTarget (stanza_to_id_map : List (StanzaId × MessageId)) :
    Option MessageTargetId → Option MessageId
  | none => none
  | some (.remoteId id) => some id
  | some (.serverId sid) => alookup stanza_to_id_map sid

/-- One step of the second pass (lines 157–245 of `message.rs`): resolve the
target, skip if unresolved or if the entry is retracted or unknown,
otherwise apply the modifier payload. -/
def applyModifier (stanza_to_id_map : List (StanzaId × MessageId))
    (st : List (MessageId × Option Message)) (modifier : MessageLike) :
    List (MessageId × Option Message) :=
  match resolveTarget stanza_to_id_map modifier.target with
  | none => st
  | some message_id =>
    match alookup st message_id with
    | some (some message) =>
      match modifier.payload with
      | .correction body attachments encryption_info =>
        aupdate st message_id (some
          { message with
            body := { raw := body.raw, html := body.html }
            mentions := body.mentions
            is_edited := true
            attachments := attachments
            is_encrypted := encryption_info.isSome })
      | .deliveryReceipt =>
        aupdate st message_id (some { message with is_delivered := true })
      | .readReceipt =>
        aupdate st message_id (some { message with is_read := true })
      | .reaction emojis =>
        aupdate st message_id (some (applyReaction message modifier.from_ emojis))
      | .retraction => aupdate st message_id none
      | .message _ _ _ _ => st
      | .error _ => st
    | _ => st

/-- The final ordered map after both passes. -/
def reducedMap (messages : List MessageLike) :
    List (MessageId × Option Message) :=
  let st := pass1 messages
  st.modifiers.foldl (applyModifier st.stanza_to_id_map) st.messages_map

/-- `Message::reducing_messages`: the non-retracted values of the map in
insertion order (line 247 of `message.rs`). -/
def Message.reducing_messages (messages : List MessageLike) : List Message :=
  (reducedMap messages).filterMap (fun kv => kv.2)

/-- The entry of the final map at a given client id. -/
def reducedEntry (messages : List MessageLike) (t : MessageId) :
    Option (Option Message) :=
  alookup (reducedMap messages) t

/-! ### Reaction folding: the per-event snapshot lemmas -/

/-- `a` appears as an author of emoji `e` somewhere in the reaction list. -/
def hasReact (rs : List Reaction) (a : ParticipantId) (e : Emoji) : Prop :=
  ∃ r ∈ rs, r.emoji = e ∧ a ∈ r.from_

theorem mem_eraseFirst_of_ne {ls : List Emoji} {a e : Emoji} (h : a ≠ e) :
    a ∈ eraseFirst ls e ↔ a ∈ ls := by
  induction ls with
  | nil => simp [eraseFirst]
  | cons x xs ih =>
    by_cases hx : x = e
    · simp [eraseFirst, hx, h, Ne.symm h]
    · simp [eraseFirst, hx, ih]

theorem mem_of_mem_eraseFirst {ls : List Emoji} {a e : Emoji}
    (h : a ∈ eraseFirst ls e) : a ∈ ls := by
  induction ls with
  | nil => simp [eraseFirst] at h
  | cons x xs ih =>
    by_cases hx : x = e
    · simp only [eraseFirst, if_pos hx] at h
      exact List.mem_cons_of_mem _ h
    · simp only [eraseFirst, if_neg hx, List.mem_cons] at h ⊢
      exact h.imp id ih

theorem mem_removeLast_of_ne {ls : List Emoji} {a e : Emoji} (h : a ≠ e) :
    a ∈ removeLast ls e ↔ a ∈ ls := by
  simp [removeLast, mem_eraseFirst_of_ne h]

theorem mem_of_mem_removeLast {ls : List Emoji} {a e : Emoji}
    (h : a ∈ removeLast ls e) : a ∈ ls := by
  simp only [removeLast, List.mem_reverse] at h
  simpa using mem_of_mem_eraseFirst h

/-- Left-over emojis were all present in the modifier's emoji list. -/
theorem applyToReactions_rem_subset (actor : ParticipantId) :
    ∀ (rs : List Reaction) (emojis : List Emoji) (e : Emoji),
      e ∈ (applyToReactions actor rs emojis).2 → e ∈ emojis := by
  intro rs
  induction rs with
  | nil => intro emojis e h; simpa [applyToReactions] using h
  | cons r rest ih =>
    intro emojis e h
    by_cases hm : r.emoji ∈ emojis
    · simp only [applyToReactions, if_pos hm] at h
      exact mem_of_mem_removeLast (ih _ _ h)
    · simp only [applyToReactions, if_neg hm] at h
      exact ih _ _ h

/-- A pending emoji matched by no existing reaction survives to the
left-over list. -/
theorem applyToReactions_rem_complete (actor : ParticipantId) :
    ∀ (rs : List Reaction) (emojis : List Emoji) (e : Emoji),
      e ∈ emojis → (∀ r ∈ rs, r.emoji ≠ e) →
      e ∈ (applyToReactions actor rs emojis).2 := by
  intro rs
  induction rs with
  | nil => intro emojis e he _; simpa [applyToReactions] using he
  | cons r rest ih =>
    intro emojis e he hne
    have hre : r.emoji ≠ e := hne r (List.mem_cons_self r rest)
    by_cases hm : r.emoji ∈ emojis
    · simp only [applyToReactions, if_pos hm]
      exact ih _ _ ((mem_removeLast_of_ne (Ne.symm hre)).mpr he)
        (fun r' hr' => hne r' (List.mem_cons_of_mem _ hr'))
    · simp only [applyToReactions, if_neg hm]
      exact ih _ _ he (fun r' hr' => hne r' (List.mem_cons_of_mem _ hr'))

/-- A pending emoji that matches some existing reaction ends up carrying the
actor. -/
theorem applyToReactions_actor_mem (actor : ParticipantId) :
    ∀ (rs : List Reaction) (emojis : List Emoji) (e : Emoji),
      e ∈ emojis → (∃ r ∈ rs, r.emoji = e) →
      hasReact (applyToReactions actor rs emojis).1 actor e := by
  intro rs
  induction rs with
  | nil => intro emojis e _ hex; simp at hex
  | cons r rest ih =>
    intro emojis e he hex
    by_cases hre : r.emoji = e
    · have hm : r.emoji ∈ emojis := hre ▸ he
      simp only [applyToReactions, if_pos hm]
      refine ⟨_, List.mem_cons_self _ _, hre, ?_⟩
      by_cases ha : actor ∈ r.from_ <;> simp [ha]
    · obtain ⟨r', hr', hr'e⟩ := hex
      rcases List.mem_cons.mp hr' with rfl | hr'rest
      · exact absurd hr'e hre
      by_cases hm : r.emoji ∈ emojis
      · simp only [applyToReactions, if_pos hm]
        have := ih (removeLast emojis r.emoji) e
          ((mem_removeLast_of_ne (fun h => hre h.symm)).mpr he)
          ⟨r', hr'rest, hr'e⟩
        obtain ⟨r2, hr2, h2⟩ := this
        exact ⟨r2, List.mem_cons_of_mem _ hr2, h2⟩
      · simp only [applyToReactions, if_neg hm]
        obtain ⟨r2, hr2, h2⟩ := ih emojis e he ⟨r', hr'rest, hr'e⟩
        exact ⟨r2, List.mem_cons_of_mem _ hr2, h2⟩

/-- Conversely, after the walk the actor only stands on emojis of the
modifier's list. -/
theorem applyToReactions_actor_mem_rev (actor : ParticipantId) :
    ∀ (rs : List Reaction) (emojis : List Emoji) (e : Emoji),
      hasReact (applyToReactions actor rs emojis).1 actor e → e ∈ emojis := by
  intro rs
  induction rs with
  | nil => intro emojis e h; simp [applyToReactions, hasReact] at h
  | cons r rest ih =>
    intro emojis e h
    by_cases hm : r.emoji ∈ emojis
    · simp only [applyToReactions, if_pos hm] at h
      obtain ⟨r2, hr2, h2e, h2a⟩ := h
      rcases List.mem_cons.mp hr2 with rfl | hr2rest
      · simpa using h2e ▸ hm
      · exact mem_of_mem_removeLast (ih _ _ ⟨r2, hr2rest, h2e, h2a⟩)
    · simp only [applyToReactions, if_neg hm] at h
      obtain ⟨r2, hr2, h2e, h2a⟩ := h
      rcases List.mem_cons.mp hr2 with rfl | hr2rest
      · simp only [List.mem_filter, decide_eq_true_eq] at h2a
        exact absurd rfl h2a.2
      · exact ih _ _ ⟨r2, hr2rest, h2e, h2a⟩

/-- Authors other than the acting participant are untouched by the walk. -/
theorem applyToReactions_other (actor b : ParticipantId) (hb : b ≠ actor) :
    ∀ (rs : List Reaction) (emojis : List Emoji) (e : Emoji),
      hasReact (applyToReactions actor rs emojis).1 b e ↔ hasReact rs b e := by
  intro rs
  induction rs with
  | nil => intro emojis e; simp [applyToReactions, hasReact]
  | cons r rest ih =>
    intro emojis e
    by_cases hm : r.emoji ∈ emojis
    · simp only [applyToReactions, if_pos hm]
      constructor
      · rintro ⟨r2, hr2, h2e, h2a⟩
        rcases List.mem_cons.mp hr2 with rfl | hr2rest
        · refine ⟨r, List.mem_cons_self _ _, h2e, ?_⟩
          by_cases ha : actor ∈ r.from_
          · simpa [ha] using h2a
          · simp only [if_neg ha, List.mem_append, List.mem_singleton] at h2a
            exact h2a.resolve_right hb
        · obtain ⟨r3, hr3, h3⟩ := (ih _ _).mp ⟨r2, hr2rest, h2e, h2a⟩
          exact ⟨r3, List.mem_cons_of_mem _ hr3, h3⟩
      · rintro ⟨r2, hr2, h2e, h2a⟩
        rcases List.mem_cons.mp hr2 with rfl | hr2rest
        · refine ⟨_, List.mem_cons_self _ _, h2e, ?_⟩
          by_cases ha : actor ∈ r2.from_ <;> simp [ha, h2a]
        · obtain ⟨r3, hr3, h3⟩ := (ih _ _).mpr ⟨r2, hr2rest, h2e, h2a⟩
          exact ⟨r3, List.mem_cons_of_mem _ hr3, h3⟩
    · simp only [applyToReactions, if_neg hm]
      constructor
      · rintro ⟨r2, hr2, h2e, h2a⟩
        rcases List.mem_cons.mp hr2 with rfl | hr2rest
        · simp only [List.mem_filter, decide_eq_true_eq] at h2a
          exact ⟨r, List.mem_cons_self _ _, h2e, h2a.1⟩
        · obtain ⟨r3, hr3, h3⟩ := (ih _ _).mp ⟨r2, hr2rest, h2e, h2a⟩
          exact ⟨r3, List.mem_cons_of_mem _ hr3, h3⟩
      · rintro ⟨r2, hr2, h2e, h2a⟩
        rcases List.mem_cons.mp hr2 with rfl | hr2rest
        · refine ⟨_, List.mem_cons_self _ _, h2e, ?_⟩
          simp only [List.mem_filter, decide_eq_true_eq]
          exact ⟨h2a, hb⟩
        · obtain ⟨r3, hr3, h3⟩ := (ih _ _).mpr ⟨r2, hr2rest, h2e, h2a⟩
          exact ⟨r3, List.mem_cons_of_mem _ hr3, h3⟩

theorem hasReact_filter_nonempty (rs : List Reaction) (a : ParticipantId)
    (e : Emoji) :
    hasReact (rs.filter (fun r => ¬ r.from_.isEmpty)) a e ↔ hasReact rs a e := by
  constructor
  · rintro ⟨r, hr, h⟩
    exact ⟨r, List.mem_of_mem_filter hr, h⟩
  · rintro ⟨r, hr, he, ha⟩
    refine ⟨r, List.mem_filter.mpr ⟨hr, ?_⟩, he, ha⟩
    simp only [decide_eq_true_eq]
    intro hemp
    rw [List.isEmpty_iff] at hemp
    simp [hemp] at ha

theorem hasReact_append (l1 l2 : List Reaction) (a : ParticipantId)
    (e : Emoji) :
    hasReact (l1 ++ l2) a e ↔ hasReact l1 a e ∨ hasReact l2 a e := by
  constructor
  · rintro ⟨r, hr, h⟩
    rcases List.mem_append.mp hr with h1 | h2
    · exact Or.inl ⟨r, h1, h⟩
    · exact Or.inr ⟨r, h2, h⟩
  · rintro (⟨r, hr, h⟩ | ⟨r, hr, h⟩)
    · exact ⟨r, List.mem_append_left _ hr, h⟩
    · exact ⟨r, List.mem_append_right _ hr, h⟩

theorem hasReact_map_single (rem : List Emoji) (actor a : ParticipantId)
    (e : Emoji) :
    hasReact (rem.map (fun x => ({ emoji := x, from_ := [actor] } : Reaction)))
        a e ↔ (a = actor ∧ e ∈ rem) := by
  constructor
  · rintro ⟨r, hr, he, ha⟩
    obtain ⟨x, hx, rfl⟩ := List.mem_map.mp hr
    simp only [List.mem_singleton] at ha
    exact ⟨ha, he ▸ hx⟩
  · rintro ⟨rfl, he⟩
    exact ⟨_, List.mem_map.mpr ⟨e, he, rfl⟩, rfl, List.mem_singleton.mpr rfl⟩

/-- The emoji set of an actor on a message, read off the reactions as
`Message::reactions_from` does. -/
def reactionsFromM (m : Message) (a : ParticipantId) : List Emoji :=
  (m.reactions.filter (fun r => a ∈ r.from_)).map (fun r => r.emoji)

theorem mem_reactionsFromM {m : Message} {a : ParticipantId} {e : Emoji} :
    e ∈ reactionsFromM m a ↔ hasReact m.reactions a e := by
  constructor
  · intro h
    obtain ⟨r, hr, rfl⟩ := List.mem_map.mp h
    have hm := List.mem_filter.mp hr
    refine ⟨r, hm.1, rfl, ?_⟩
    simpa using hm.2
  · rintro ⟨r, hr, rfl, ha⟩
    exact List.mem_map.mpr ⟨r, List.mem_filter.mpr ⟨hr, by simpa using ha⟩, rfl⟩

/-- Applying a `Reaction` modifier makes the actor's emoji set exactly the
emoji set carried by the modifier. -/
theorem applyReaction_self (m : Message) (actor : ParticipantId)
    (emojis : List Emoji) (e : Emoji) :
    e ∈ reactionsFromM (applyReaction m actor emojis) actor ↔ e ∈ emojis := by
  rw [mem_reactionsFromM]
  simp only [applyReaction]
  rw [hasReact_append, hasReact_filter_nonempty, hasReact_map_single]
  constructor
  · rintro (h | ⟨-, h⟩)
    · exact applyToReactions_actor_mem_rev actor _ _ _ h
    · exact applyToReactions_rem_subset actor _ _ _ h
  · intro he
    by_cases hex : ∃ r ∈ m.reactions, r.emoji = e
    · exact Or.inl (applyToReactions_actor_mem actor _ _ _ he hex)
    · push_neg at hex
      exact Or.inr ⟨rfl, applyToReactions_rem_complete actor _ _ _ he hex⟩

/-- Applying a `Reaction` modifier leaves every other actor's emoji set
unchanged. -/
theorem applyReaction_other (m : Message) (actor b : ParticipantId)
    (hb : b ≠ actor) (emojis : List Emoji) (e : Emoji) :
    e ∈ reactionsFromM (applyReaction m actor emojis) b ↔
      e ∈ reactionsFromM m b := by
  rw [mem_reactionsFromM, mem_reactionsFromM]
  simp only [applyReaction]
  rw [hasReact_append, hasReact_filter_nonempty, hasReact_map_single,
    applyToReactions_other actor b hb]
  constructor
  · rintro (h | ⟨rfl, -⟩)
    · exact h
    · exact absurd rfl hb
  · exact Or.inl

/-! ### The effect of one modifier on one entry of the map -/

theorem alookup_aupdate {β : Type} (l : List (String × β)) (k t : String)
    (v : β) :
    alookup (aupdate l k v) t = if k = t then some v else alookup l t := by
  by_cases h : k = t
  · subst h; simp [alookup_aupdate_self]
  · simp [h, alookup_aupdate_ne l h]

/-- The value a modifier turns a live message into: `none` encodes
retraction, the impossible `Message`/`Error` arms leave the message as-is
(they are `unreachable!()` in the source). -/
def modifyMessage (modifier : MessageLike) (message : Message) :
    Option Message :=
  match modifier.payload with
  | .correction body attachments encryption_info =>
    some { message with
      body := { raw := body.raw, html := body.html }
      mentions := body.mentions
      is_edited := true
      attachments := attachments
      is_encrypted := encryption_info.isSome }
  | .deliveryReceipt => some { message with is_delivered := true }
  | .readReceipt => some { message with is_read := true }
  | .reaction emojis => some (applyReaction message modifier.from_ emojis)
  | .retraction => none
  | .message _ _ _ _ => some message
  | .error _ => some message

/-- How one pass-two step transforms the map entry of client id `t`. -/
def entryStep (stanza_to_id_map : List (StanzaId × MessageId))
    (modifier : MessageLike) (t : MessageId)
    (e : Option (Option Message)) : Option (Option Message) :=
  if resolveTarget stanza_to_id_map modifier.target = some t then
    match e with
    | some (some m) => some (modifyMessage modifier m)
    | x => x
  else e

theorem applyModifier_alookup (smap : List (StanzaId × MessageId))
    (st : List (MessageId × Option Message)) (modifier : MessageLike)
    (t : MessageId) :
    alookup (applyModifier smap st modifier) t =
      entryStep smap modifier t (alookup st t) := by
  unfold applyModifier entryStep
  cases hr : resolveTarget smap modifier.target with
  | none => simp
  | some mid =>
    by_cases hmid : mid = t
    · subst hmid
      cases hl : alookup st mid with
      | none => simp [hl]
      | some o =>
        cases o with
        | none => simp [hl]
        | some m =>
          cases hp : modifier.payload <;>
            simp [hl, hp, modifyMessage, alookup_aupdate_self]
    · cases hl : alookup st mid with
      | none => simp [hl, hmid]
      | some o =>
        cases o with
        | none => simp [hl, hmid]
        | some m =>
          cases hp : modifier.payload <;>
            simp [hl, hp, hmid, alookup_aupdate_ne _ hmid]

/-- The second pass seen from a single entry: a fold of `entryStep`. -/
def entryFold (smap : List (StanzaId × MessageId)) (t : MessageId)
    (mods : List MessageLike) (e : Option (Option Message)) :
    Option (Option Message) :=
  mods.foldl (fun e modifier => entryStep smap modifier t e) e

theorem foldl_applyModifier_alookup (smap : List (StanzaId × MessageId))
    (mods : List MessageLike) :
    ∀ (st : List (MessageId × Option Message)) (t : MessageId),
      alookup (mods.foldl (applyModifier smap) st) t =
        entryFold smap t mods (alookup st t) := by
  induction mods with
  | nil => intro st t; rfl
  | cons modifier rest ih =>
    intro st t
    simp only [List.foldl_cons, entryFold] at *
    rw [ih, applyModifier_alookup]

theorem reducedEntry_eq_entryFold (messages : List MessageLike)
    (t : MessageId) :
    reducedEntry messages t =
      entryFold (pass1 messages).stanza_to_id_map t (pass1 messages).modifiers
        (alookup (pass1 messages).messages_map t) := by
  unfold reducedEntry reducedMap
  exact foldl_applyModifier_alookup _ _ _ _

/-- An entry that is retracted (or absent) is not a live message. -/
def deadE (e : Option (Option Message)) : Prop :=
  ∀ m : Message, e ≠ some (some m)

theorem entryStep_of_dead {e : Option (Option Message)} (h : deadE e)
    (smap : List (StanzaId × MessageId)) (modifier : MessageLike)
    (t : MessageId) : entryStep smap modifier t e = e := by
  unfold entryStep
  cases e with
  | none => split <;> rfl
  | some o =>
    cases o with
    | none => split <;> rfl
    | some m => exact absurd rfl (h m)

theorem entryFold_of_dead {e : Option (Option Message)} (h : deadE e)
    (smap : List (StanzaId × MessageId)) (t : MessageId)
    (mods : List MessageLike) : entryFold smap t mods e = e := by
  induction mods with
  | nil => rfl
  | cons modifier rest ih =>
    unfold entryFold at *
    rw [List.foldl_cons, entryStep_of_dead h, ih]

/-- Pass two never resurrects an entry: a live output entry came from a live
input entry. -/
theorem entryStep_live {e : Option (Option Message)}
    {smap : List (StanzaId × MessageId)} {modifier : MessageLike}
    {t : MessageId} {m : Message}
    (h : entryStep smap modifier t e = some (some m)) :
    ∃ m0, e = some (some m0) := by
  unfold entryStep at h
  split at h
  · cases e with
    | none => exact absurd h (by simp)
    | some o =>
      cases o with
      | none => exact absurd h (by simp)
      | some m0 => exact ⟨m0, rfl⟩
  · exact ⟨m, h⟩

/-- A resolving `Retraction` kills the entry. -/
theorem entryStep_retraction {smap : List (StanzaId × MessageId)}
    {modifier : MessageLike} {t : MessageId}
    (hp : modifier.payload = .retraction)
    (hr : resolveTarget smap modifier.target = some t)
    (e : Option (Option Message)) : deadE (entryStep smap modifier t e) := by
  unfold entryStep
  rw [if_pos hr]
  cases e with
  | none => intro m; simp
  | some o =>
    cases o with
    | none => intro m; simp
    | some m0 =>
      intro m
      simp [modifyMessage, hp]

/-- A modifier that resolves to a retracted or unknown entry is skipped
without any effect on the map (lines 174–177 of `message.rs`). -/
theorem applyModifier_skip {smap : List (StanzaId × MessageId)}
    {st : List (MessageId × Option Message)} {modifier : MessageLike}
    {t : MessageId}
    (hr : resolveTarget smap modifier.target = some t)
    (hd : ∀ m : Message, alookup st t ≠ some (some m)) :
    applyModifier smap st modifier = st := by
  unfold applyModifier
  rw [hr]
  cases hl : alookup st t with
  | none => simp [hl]
  | some o =>
    cases o with
    | none => simp [hl]
    | some m => exact absurd hl (hd m)

theorem entryFold_nil (smap : List (StanzaId × MessageId)) (t : MessageId)
    (e : Option (Option Message)) : entryFold smap t [] e = e := rfl

theorem entryFold_cons (smap : List (StanzaId × MessageId)) (t : MessageId)
    (modifier : MessageLike) (rest : List MessageLike)
    (e : Option (Option Message)) :
    entryFold smap t (modifier :: rest) e =
      entryFold smap t rest (entryStep smap modifier t e) := rfl

/-! ### Pass-one facts -/

/-- Shape of every live entry right after pass one: fresh flags, no
reactions, and a `remote_id` that hides synthesized ids. -/
def initEntry (t : MessageId) (m : Message) : Prop :=
  m.reactions = [] ∧ m.is_edited = false ∧ m.is_read = false ∧
    m.is_delivered = false ∧
    m.remote_id = MessageLikeId.into_original_id ⟨t⟩

theorem pass1_go_entry :
    ∀ (evs : List MessageLike) (acc : Pass1State),
      (∀ t m, alookup acc.messages_map t = some (some m) → initEntry t m) →
      ∀ t m,
        alookup (evs.foldl pass1Step acc).messages_map t = some (some m) →
        initEntry t m := by
  intro evs
  induction evs with
  | nil => intro acc h; exact h
  | cons ev rest ih =>
    intro acc h
    rw [List.foldl_cons]
    apply ih
    intro t m hm
    cases hp : ev.payload with
    | message body attachments encryption_info is_transient =>
      simp only [pass1Step, hp] at hm
      rw [alookup_aupdate] at hm
      by_cases hk : ev.id.id = t
      · rw [if_pos hk] at hm
        have hmk := Option.some_inj.mp (Option.some_inj.mp hm)
        refine hmk ▸ ⟨rfl, rfl, rfl, rfl, ?_⟩
        simp [mkMessage, MessageLikeId.into_original_id, hk]
      · rw [if_neg hk] at hm
        exact h t m hm
    | error err =>
      simp only [pass1Step, hp] at hm
      rw [alookup_aupdate] at hm
      by_cases hk : ev.id.id = t
      · rw [if_pos hk] at hm
        have hmk := Option.some_inj.mp (Option.some_inj.mp hm)
        refine hmk ▸ ⟨rfl, rfl, rfl, rfl, ?_⟩
        simp [mkErrorMessage, MessageLikeId.into_original_id, hk]
      · rw [if_neg hk] at hm
        exact h t m hm
    | correction body attachments encryption_info =>
      simp only [pass1Step, hp] at hm; exact h t m hm
    | deliveryReceipt => simp only [pass1Step, hp] at hm; exact h t m hm
    | readReceipt => simp only [pass1Step, hp] at hm; exact h t m hm
    | reaction emojis => simp only [pass1Step, hp] at hm; exact h t m hm
    | retraction => simp only [pass1Step, hp] at hm; exact h t m hm

theorem pass1_entry (evs : List MessageLike) (t : MessageId) (m : Message)
    (hm : alookup (pass1 evs).messages_map t = some (some m)) :
    initEntry t m := by
  refine pass1_go_entry evs ⟨[], [], []⟩ ?_ t m hm
  intro t m h
  simp [alookup] at h

/-- The stanza-id → client-id map is built from `Message`/`Error` events
only; dropping all `Retraction` events does not change it. -/
theorem pass1_go_smap_filter :
    ∀ (evs : List MessageLike) (acc1 acc2 : Pass1State),
      acc1.stanza_to_id_map = acc2.stanza_to_id_map →
      ((evs.filter
            (fun e => e.payload ≠ MessageLikePayload.retraction)).foldl
          pass1Step acc1).stanza_to_id_map =
        (evs.foldl pass1Step acc2).stanza_to_id_map := by
  intro evs
  induction evs with
  | nil => intro acc1 acc2 h; exact h
  | cons ev rest ih =>
    intro acc1 acc2 h
    by_cases hret : ev.payload = MessageLikePayload.retraction
    · rw [List.filter_cons_of_neg (by simp [hret]), List.foldl_cons]
      apply ih
      rw [h]
      simp only [pass1Step, hret]
    · rw [List.filter_cons_of_pos (by simp [hret]), List.foldl_cons,
        List.foldl_cons]
      apply ih
      cases hp : ev.payload <;> simp only [pass1Step, hp, h]

/-! ### Per-entry tracking of reaction and correction modifiers -/

theorem getLast?_getD_cons {α : Type} (a : α) (l : List α) (c : α) :
    ((a :: l).getLast?).getD c = (l.getLast?).getD a := by
  cases l with
  | nil => rfl
  | cons b l' =>
    rw [List.getLast?_cons_cons]
    cases hx : (b :: l').getLast? with
    | none => simp at hx
    | some x => rfl

theorem filterMap_getLastD_cons {α β : Type} (f : α → Option β) (x : α)
    (l : List α) (c : β) :
    (((x :: l).filterMap f).getLast?).getD c =
      ((l.filterMap f).getLast?).getD ((f x).getD c) := by
  rw [List.filterMap_cons]
  cases hf : f x with
  | none => simp
  | some b => simp [getLast?_getD_cons]

/-- The emoji list of a `Reaction` event from actor `a` that resolves to
message `t`; `none` for every other event. -/
def reactionEmojisTo (smap : List (StanzaId × MessageId)) (t : MessageId)
    (a : ParticipantId) (modifier : MessageLike) : Option (List Emoji) :=
  match modifier.payload with
  | .reaction emojis =>
    if modifier.from_ = a ∧ resolveTarget smap modifier.target = some t then
      some emojis
    else none
  | _ => none

theorem reactionEmojisTo_of_not_resolve {smap : List (StanzaId × MessageId)}
    {t : MessageId} {a : ParticipantId} {modifier : MessageLike}
    (hres : resolveTarget smap modifier.target ≠ some t) :
    reactionEmojisTo smap t a modifier = none := by
  unfold reactionEmojisTo
  cases modifier.payload <;> simp [hres]

/-- Main per-entry invariant for reactions: walking the modifiers keeps the
actor's emoji set equal to the emoji list of the last `Reaction` event from
that actor that resolved to the entry. -/
theorem entryFold_reactions (smap : List (StanzaId × MessageId))
    (t : MessageId) (a : ParticipantId) :
    ∀ (mods : List MessageLike) (e0 : Option (Option Message))
      (cur : List Emoji),
      (∀ m, e0 = some (some m) →
        ∀ e, e ∈ reactionsFromM m a ↔ e ∈ cur) →
      ∀ m, entryFold smap t mods e0 = some (some m) →
        ∀ e, e ∈ reactionsFromM m a ↔
          e ∈ ((mods.filterMap (reactionEmojisTo smap t a)).getLast?).getD
            cur := by
  intro mods
  induction mods with
  | nil =>
    intro e0 cur h m hm e
    rw [entryFold_nil] at hm
    simpa using h m hm e
  | cons modifier rest ih =>
    intro e0 cur h m hm e
    rw [entryFold_cons] at hm
    rw [filterMap_getLastD_cons]
    refine ih (entryStep smap modifier t e0)
      ((reactionEmojisTo smap t a modifier).getD cur) ?_ m hm e
    intro m1 h1 e1
    by_cases hres : resolveTarget smap modifier.target = some t
    · unfold entryStep at h1
      rw [if_pos hres] at h1
      cases e0 with
      | none => simp at h1
      | some o =>
        cases o with
        | none => simp at h1
        | some m0 =>
          have hmm : modifyMessage modifier m0 = some m1 :=
            Option.some_inj.mp h1
          have h0 := h m0 rfl
          cases hp : modifier.payload with
          | reaction emojis =>
            simp only [modifyMessage, hp] at hmm
            have hm1 : m1 = applyReaction m0 modifier.from_ emojis :=
              (Option.some_inj.mp hmm).symm
            subst hm1
            by_cases hfa : modifier.from_ = a
            · simp only [reactionEmojisTo, hp, if_pos (And.intro hfa hres),
                Option.getD_some]
              rw [hfa]
              exact applyReaction_self m0 a emojis e1
            · have hcond : ¬ (modifier.from_ = a ∧
                  resolveTarget smap modifier.target = some t) :=
                fun hand => hfa hand.1
              simp only [reactionEmojisTo, hp, if_neg hcond, Option.getD_none]
              rw [applyReaction_other m0 modifier.from_ a
                (fun hjoin => hfa hjoin.symm) emojis e1]
              exact h0 e1
          | correction body attachments encryption_info =>
            simp only [modifyMessage, hp] at hmm
            have hm1 := (Option.some_inj.mp hmm).symm
            subst hm1
            simp only [reactionEmojisTo, hp, Option.getD_none]
            exact h0 e1
          | deliveryReceipt =>
            simp only [modifyMessage, hp] at hmm
            have hm1 := (Option.some_inj.mp hmm).symm
            subst hm1
            simp only [reactionEmojisTo, hp, Option.getD_none]
            exact h0 e1
          | readReceipt =>
            simp only [modifyMessage, hp] at hmm
            have hm1 := (Option.some_inj.mp hmm).symm
            subst hm1
            simp only [reactionEmojisTo, hp, Option.getD_none]
            exact h0 e1
          | message body attachments encryption_info is_transient =>
            simp only [modifyMessage, hp] at hmm
            have hm1 := (Option.some_inj.mp hmm).symm
            subst hm1
            simp only [reactionEmojisTo, hp, Option.getD_none]
            exact h0 e1
          | error err =>
            simp only [modifyMessage, hp] at hmm
            have hm1 := (Option.some_inj.mp hmm).symm
            subst hm1
            simp only [reactionEmojisTo, hp, Option.getD_none]
            exact h0 e1
          | retraction => simp [modifyMessage, hp] at hmm
    · unfold entryStep at h1
      rw [if_neg hres] at h1
      rw [reactionEmojisTo_of_not_resolve hres, Option.getD_none]
      exact h m1 h1 e1

/-! ### Claim C1 -/

/-- C1: for every event list reduced by `Message::reducing_messages` and
every pair of target message and actor, the actor's emoji set on the
resulting logical message equals exactly the emoji set carried by the last
`Reaction` event from that actor that resolves to that message — earlier
reactions from the same actor are fully overwritten and emptied reactions
are dropped — provided the target survives retraction (it is live in the
final map). -/
theorem claim_c1_reaction_snapshot (evs : List MessageLike) (t : MessageId)
    (a : ParticipantId) (m : Message) (E : List Emoji)
    (hm : reducedEntry evs t = some (some m))
    (hE : (((pass1 evs).modifiers.filterMap
        (reactionEmojisTo (pass1 evs).stanza_to_id_map t a)).getLast?) =
      some E) :
    ∀ e, e ∈ reactionsFromM m a ↔ e ∈ E := by
  rw [reducedEntry_eq_entryFold] at hm
  have base : ∀ m0,
      alookup (pass1 evs).messages_map t = some (some m0) →
      ∀ e, e ∈ reactionsFromM m0 a ↔ e ∈ ([] : List Emoji) := by
    intro m0 h0 e
    have hz := (pass1_entry evs t m0 h0).1
    simp [reactionsFromM, hz]
  have hiff := entryFold_reactions (pass1 evs).stanza_to_id_map t a
    (pass1 evs).modifiers _ [] base m hm
  intro e
  rw [hiff e, hE]
  rfl

def c1fallbackMessage : Message :=
  { remote_id := none, server_id := none, from_ := "", body := ⟨"", ""⟩,
    timestamp := 0, is_read := false, is_edited := false,
    is_delivered := false, is_transient := false, is_encrypted := false,
    reactions := [], attachments := [], mentions := [] }

def c1evs : List MessageLike :=
  [{ id := ⟨"1"⟩, stanza_id := some "s1", target := none, to_ := none,
      from_ := "b@prose.org", timestamp := 0,
      payload := .message ⟨"Hello", "Hello", []⟩ [] none false },
    { id := ⟨"2"⟩, stanza_id := none, target := some (.remoteId "1"),
      to_ := none, from_ := "a@prose.org", timestamp := 1,
      payload := .reaction ["A", "B"] },
    { id := ⟨"3"⟩, stanza_id := none, target := some (.serverId "s1"),
      to_ := none, from_ := "a@prose.org", timestamp := 2,
      payload := .reaction ["B", "C"] }]

def c1reduced : Message :=
  ((reducedEntry c1evs "1").getD none).getD c1fallbackMessage

theorem claim_c1_reaction_snapshot_witness :
    reducedEntry c1evs "1" = some (some c1reduced) ∧
      ("C" ∈ reactionsFromM c1reduced "a@prose.org" ↔ "C" ∈ ["B", "C"]) ∧
      ("A" ∈ reactionsFromM c1reduced "a@prose.org" ↔ "A" ∈ ["B", "C"]) :=
  ⟨by decide,
    claim_c1_reaction_snapshot c1evs "1" "a@prose.org" c1reduced ["B", "C"]
      (by decide) (by decide) "C",
    claim_c1_reaction_snapshot c1evs "1" "a@prose.org" c1reduced ["B", "C"]
      (by decide) (by decide) "A"⟩

/-! ### Claim C2 -/

/-- C2: a message hit by a resolving `Retraction` is absent from the
reducer's output (its entry is never live again); the stanza-id →
client-id map is unaffected by retraction events, so it keeps resolving
modifiers; and every modifier resolving to the retracted entry is skipped
without effect on the map and without aborting the reduction. -/
theorem claim_c2_retraction_semantics (evs : List MessageLike)
    (r : MessageLike) (t : MessageId)
    (hmem : r ∈ (pass1 evs).modifiers)
    (hp : r.payload = MessageLikePayload.retraction)
    (hres : resolveTarget (pass1 evs).stanza_to_id_map r.target = some t) :
    (∀ m : Message, reducedEntry evs t ≠ some (some m)) ∧
      (pass1 evs).stanza_to_id_map =
        (pass1 (evs.filter
          (fun e =>
            e.payload ≠ MessageLikePayload.retraction))).stanza_to_id_map ∧
      (∀ (st : List (MessageId × Option Message)) (modifier : MessageLike),
        resolveTarget (pass1 evs).stanza_to_id_map modifier.target =
          some t →
        (∀ m : Message, alookup st t ≠ some (some m)) →
        applyModifier (pass1 evs).stanza_to_id_map st modifier = st) := by
  refine ⟨?_, ?_, ?_⟩
  · obtain ⟨l1, l2, hsplit⟩ := List.append_of_mem hmem
    rw [reducedEntry_eq_entryFold, hsplit]
    intro m
    unfold entryFold
    rw [List.foldl_append, List.foldl_cons]
    have hdead := entryStep_retraction hp hres
      (List.foldl
        (fun e modifier =>
          entryStep (pass1 evs).stanza_to_id_map modifier t e)
        (alookup (pass1 evs).messages_map t) l1)
    show entryFold (pass1 evs).stanza_to_id_map t l2 _ ≠ some (some m)
    rw [entryFold_of_dead hdead]
    exact hdead m
  · exact (pass1_go_smap_filter evs ⟨[], [], []⟩ ⟨[], [], []⟩ rfl).symm
  · intro st modifier hres2 hd
    exact applyModifier_skip hres2 hd

def c2evs : List MessageLike :=
  [{ id := ⟨"1"⟩, stanza_id := some "s1", target := none, to_ := none,
      from_ := "b@prose.org", timestamp := 0,
      payload := .message ⟨"Hello", "Hello", []⟩ [] none false },
    { id := ⟨"2"⟩, stanza_id := none, target := some (.serverId "s1"),
      to_ := none, from_ := "b@prose.org", timestamp := 1,
      payload := .retraction },
    { id := ⟨"3"⟩, stanza_id := none, target := some (.remoteId "1"),
      to_ := none, from_ := "a@prose.org", timestamp := 2,
      payload := .reaction ["A"] }]

def c2retraction : MessageLike :=
  { id := ⟨"2"⟩, stanza_id := none, target := some (.serverId "s1"),
    to_ := none, from_ := "b@prose.org", timestamp := 1,
    payload := .retraction }

def c2probeMessage : Message :=
  { remote_id := some "1", server_id := some "s1", from_ := "b@prose.org",
    body := ⟨"Hello", "Hello"⟩, timestamp := 0, is_read := false,
    is_edited := false, is_delivered := false, is_transient := false,
    is_encrypted := false, reactions := [], attachments := [],
    mentions := [] }

theorem claim_c2_retraction_semantics_witness :
    c2retraction ∈ (pass1 c2evs).modifiers ∧
      reducedEntry c2evs "1" ≠ some (some c2probeMessage) ∧
      Message.reducing_messages c2evs = [] :=
  ⟨by decide,
    (claim_c2_retraction_semantics c2evs c2retraction "1" (by decide) rfl
      (by decide)).1 c2probeMessage,
    by decide⟩

/-! ### Claim C3 -/

/-- The correction content of a `Correction` event that resolves to message
`t`; `none` for every other event. -/
def correctionTo (smap : List (StanzaId × MessageId)) (t : MessageId)
    (modifier : MessageLike) :
    Option (MessageLikeBody × List Attachment × Option EncryptionInfo) :=
  match modifier.payload with
  | .correction body attachments encryption_info =>
    if resolveTarget smap modifier.target = some t then
      some (body, attachments, encryption_info)
    else none
  | _ => none

theorem correctionTo_of_not_resolve {smap : List (StanzaId × MessageId)}
    {t : MessageId} {modifier : MessageLike}
    (hres : resolveTarget smap modifier.target ≠ some t) :
    correctionTo smap t modifier = none := by
  unfold correctionTo
  cases modifier.payload <;> simp [hres]

/-- The message carries exactly the content of correction `c`. -/
def corrApplied (m : Message)
    (c : MessageLikeBody × List Attachment × Option EncryptionInfo) : Prop :=
  m.body = { raw := c.1.raw, html := c.1.html } ∧
    m.mentions = c.1.mentions ∧ m.attachments = c.2.1 ∧
    m.is_encrypted = c.2.2.isSome

theorem or_some_left {α : Type} (a : α) (c : Option α) :
    ((some a).or c) = some a := rfl

theorem getLast?_or_cons {α : Type} (a : α) (l : List α) (c : Option α) :
    (((a :: l).getLast?).or c) = ((l.getLast?).or (some a)) := by
  cases l with
  | nil => rfl
  | cons b l' =>
    rw [List.getLast?_cons_cons]
    cases hx : (b :: l').getLast? with
    | none => simp at hx
    | some x => rfl

theorem filterMap_getLast?_or_cons {α β : Type} (f : α → Option β) (x : α)
    (l : List α) (c : Option β) :
    ((((x :: l).filterMap f).getLast?).or c) =
      (((l.filterMap f).getLast?).or ((f x).or c)) := by
  rw [List.filterMap_cons]
  cases hf : f x with
  | none => simp
  | some b => simp [getLast?_or_cons]

/-- Per-entry invariant for corrections: `is_edited` tracks whether some
correction has resolved to the entry, and the message content tracks the
last such correction. -/
theorem entryFold_corrections (smap : List (StanzaId × MessageId))
    (t : MessageId) :
    ∀ (mods : List MessageLike) (e0 : Option (Option Message))
      (cur : Option (MessageLikeBody × List Attachment ×
        Option EncryptionInfo)),
      (∀ m, e0 = some (some m) →
        m.is_edited = cur.isSome ∧ ∀ c, cur = some c → corrApplied m c) →
      ∀ m, entryFold smap t mods e0 = some (some m) →
        m.is_edited =
            (((mods.filterMap (correctionTo smap t)).getLast?).or
              cur).isSome ∧
          ∀ c,
            (((mods.filterMap (correctionTo smap t)).getLast?).or cur) =
              some c → corrApplied m c := by
  intro mods
  induction mods with
  | nil =>
    intro e0 cur h m hm
    rw [entryFold_nil] at hm
    simpa using h m hm
  | cons modifier rest ih =>
    intro e0 cur h m hm
    rw [entryFold_cons] at hm
    rw [filterMap_getLast?_or_cons]
    refine ih (entryStep smap modifier t e0)
      ((correctionTo smap t modifier).or cur) ?_ m hm
    intro m1 h1
    by_cases hres : resolveTarget smap modifier.target = some t
    · unfold entryStep at h1
      rw [if_pos hres] at h1
      cases e0 with
      | none => simp at h1
      | some o =>
        cases o with
        | none => simp at h1
        | some m0 =>
          have hmm : modifyMessage modifier m0 = some m1 :=
            Option.some_inj.mp h1
          have h0 := h m0 rfl
          cases hp : modifier.payload with
          | correction body attachments encryption_info =>
            simp only [modifyMessage, hp] at hmm
            have hm1 := (Option.some_inj.mp hmm).symm
            subst hm1
            simp only [correctionTo, hp, if_pos hres, or_some_left]
            exact ⟨rfl, fun c hc => by
              have := (Option.some_inj.mp hc).symm
              subst this
              exact ⟨rfl, rfl, rfl, rfl⟩⟩
          | reaction emojis =>
            simp only [modifyMessage, hp] at hmm
            have hm1 := (Option.some_inj.mp hmm).symm
            subst hm1
            simp only [correctionTo, hp, Option.none_or]
            exact h0
          | deliveryReceipt =>
            simp only [modifyMessage, hp] at hmm
            have hm1 := (Option.some_inj.mp hmm).symm
            subst hm1
            simp only [correctionTo, hp, Option.none_or]
            exact h0
          | readReceipt =>
            simp only [modifyMessage, hp] at hmm
            have hm1 := (Option.some_inj.mp hmm).symm
            subst hm1
            simp only [correctionTo, hp, Option.none_or]
            exact h0
          | message body attachments encryption_info is_transient =>
            simp only [modifyMessage, hp] at hmm
            have hm1 := (Option.some_inj.mp hmm).symm
            subst hm1
            simp only [correctionTo, hp, Option.none_or]
            exact h0
          | error err =>
            simp only [modifyMessage, hp] at hmm
            have hm1 := (Option.some_inj.mp hmm).symm
            subst hm1
            simp only [correctionTo, hp, Option.none_or]
            exact h0
          | retraction => simp [modifyMessage, hp] at hmm
    · unfold entryStep at h1
      rw [if_neg hres] at h1
      rw [correctionTo_of_not_resolve hres, Option.none_or]
      exact h m1 h1

/-- C3: for every surviving reduced message, `is_edited` is true iff at
least one `Correction` event resolves to it, and the body, mentions,
attachments and `is_encrypted` flag equal those of the last such
`Correction` in input order. -/
theorem claim_c3_correction_last_wins (evs : List MessageLike)
    (t : MessageId) (m : Message)
    (hm : reducedEntry evs t = some (some m)) :
    (m.is_edited = true ↔
        ∃ modifier ∈ (pass1 evs).modifiers,
          (correctionTo (pass1 evs).stanza_to_id_map t modifier).isSome =
            true) ∧
      ∀ c,
        (((pass1 evs).modifiers.filterMap
            (correctionTo (pass1 evs).stanza_to_id_map t)).getLast?) =
          some c →
        m.body = { raw := c.1.raw, html := c.1.html } ∧
          m.mentions = c.1.mentions ∧ m.attachments = c.2.1 ∧
          m.is_encrypted = c.2.2.isSome := by
  rw [reducedEntry_eq_entryFold] at hm
  have base : ∀ m0,
      alookup (pass1 evs).messages_map t = some (some m0) →
      m0.is_edited = (none : Option (MessageLikeBody × List Attachment ×
          Option EncryptionInfo)).isSome ∧
        ∀ c, (none : Option (MessageLikeBody × List Attachment ×
          Option EncryptionInfo)) = some c → corrApplied m0 c := by
    intro m0 h0
    refine ⟨?_, fun c hc => by simp at hc⟩
    simpa using (pass1_entry evs t m0 h0).2.1
  have hfold := entryFold_corrections (pass1 evs).stanza_to_id_map t
    (pass1 evs).modifiers _ none base m hm
  rw [Option.or_none] at hfold
  constructor
  · rw [hfold.1]
    rw [List.getLast?_isSome]
    constructor
    · intro hne
      by_contra hno
      push_neg at hno
      apply hne
      rw [List.filterMap_eq_nil_iff]
      intro modifier hmod
      have := hno modifier hmod
      simpa [Option.isSome_iff_ne_none] using this
    · rintro ⟨modifier, hmod, hsome⟩ hnil
      rw [List.filterMap_eq_nil_iff] at hnil
      rw [hnil modifier hmod] at hsome
      simp at hsome
  · exact hfold.2

def c3evs : List MessageLike :=
  [{ id := ⟨"1"⟩, stanza_id := some "s1", target := none, to_ := none,
      from_ := "b@prose.org", timestamp := 0,
      payload := .message ⟨"Hello", "Hello", []⟩ [] none false },
    { id := ⟨"2"⟩, stanza_id := none, target := some (.remoteId "1"),
      to_ := none, from_ := "b@prose.org", timestamp := 1,
      payload := .correction ⟨"Hello 1", "Hello 1", []⟩ [] none },
    { id := ⟨"3"⟩, stanza_id := none, target := some (.serverId "s1"),
      to_ := none, from_ := "b@prose.org", timestamp := 2,
      payload := .correction ⟨"Hello 2", "Hello 2", ["m2"]⟩ ["att2"]
        (some "enc2") }]

def c3fallbackMessage : Message :=
  { remote_id := none, server_id := none, from_ := "", body := ⟨"", ""⟩,
    timestamp := 0, is_read := false, is_edited := false,
    is_delivered := false, is_transient := false, is_encrypted := false,
    reactions := [], attachments := [], mentions := [] }

def c3reduced : Message :=
  ((reducedEntry c3evs "1").getD none).getD c3fallbackMessage

def c3correction2 : MessageLike :=
  { id := ⟨"3"⟩, stanza_id := none, target := some (.serverId "s1"),
    to_ := none, from_ := "b@prose.org", timestamp := 2,
    payload := .correction ⟨"Hello 2", "Hello 2", ["m2"]⟩ ["att2"]
      (some "enc2") }

theorem claim_c3_correction_last_wins_witness :
    reducedEntry c3evs "1" = some (some c3reduced) ∧
      c3reduced.is_edited = true ∧
      c3reduced.body = { raw := "Hello 2", html := "Hello 2" } ∧
      c3reduced.attachments = ["att2"] ∧
      c3reduced.is_encrypted = true :=
  have h := claim_c3_correction_last_wins c3evs "1" c3reduced (by decide)
  have hlast := h.2 ⟨⟨"Hello 2", "Hello 2", ["m2"]⟩, ["att2"], some "enc2"⟩
    (by decide)
  ⟨by decide,
    h.1.mpr ⟨c3correction2, by decide, by decide⟩,
    hlast.1, hlast.2.2.1, hlast.2.2.2⟩

/-! ### Claim C9 -/

/-- Generic preservation along the second pass: any message property kept
by every modifier application holds for every surviving entry. -/
theorem entryFold_preserve (P : Message → Prop)
    (hP : ∀ (modifier : MessageLike) (m m' : Message),
      modifyMessage modifier m = some m' → P m → P m')
    (smap : List (StanzaId × MessageId)) (t : MessageId) :
    ∀ (mods : List MessageLike) (e0 : Option (Option Message)),
      (∀ m, e0 = some (some m) → P m) →
      ∀ m, entryFold smap t mods e0 = some (some m) → P m := by
  intro mods
  induction mods with
  | nil =>
    intro e0 h m hm
    rw [entryFold_nil] at hm
    exact h m hm
  | cons modifier rest ih =>
    intro e0 h m hm
    rw [entryFold_cons] at hm
    refine ih (entryStep smap modifier t e0) ?_ m hm
    intro m1 h1
    by_cases hres : resolveTarget smap modifier.target = some t
    · unfold entryStep at h1
      rw [if_pos hres] at h1
      cases e0 with
      | none => simp at h1
      | some o =>
        cases o with
        | none => simp at h1
        | some m0 =>
          exact hP modifier m0 m1 (Option.some_inj.mp h1) (h m0 rfl)
    · unfold entryStep at h1
      rw [if_neg hres] at h1
      exact h m1 h1

/-- No modifier application ever changes `remote_id`. -/
theorem modifyMessage_remote_id (modifier : MessageLike) (m m' : Message)
    (h : modifyMessage modifier m = some m') : m'.remote_id = m.remote_id := by
  unfold modifyMessage at h
  cases hp : modifier.payload <;> rw [hp] at h <;>
    first
      | exact ((Option.some_inj.mp h).symm ▸ rfl)
      | simp at h

/-- C9: a synthesized (`!!`-prefixed) id never leaks into `remote_id`; the
reduced message stored under such an id has `remote_id = none`. -/
theorem claim_c9_synthesized_id_hidden (evs : List MessageLike)
    (t : MessageId) (m : Message)
    (hm : reducedEntry evs t = some (some m))
    (hsyn : isSynthesizedId t = true) : m.remote_id = none := by
  rw [reducedEntry_eq_entryFold] at hm
  have hrid : m.remote_id = MessageLikeId.into_original_id ⟨t⟩ := by
    refine entryFold_preserve
      (fun x => x.remote_id = MessageLikeId.into_original_id ⟨t⟩)
      ?_ _ t (pass1 evs).modifiers _ ?_ m hm
    · intro modifier m0 m1 h h0
      rw [modifyMessage_remote_id modifier m0 m1 h]
      exact h0
    · intro m0 h0
      exact (pass1_entry evs t m0 h0).2.2.2.2
  rw [hrid]
  simp [MessageLikeId.into_original_id, hsyn]

def c9evs : List MessageLike :=
  [{ id := ⟨"!!gen-0001"⟩, stanza_id := some "s9", target := none,
      to_ := none, from_ := "b@prose.org", timestamp := 0,
      payload := .message ⟨"Hi", "Hi", []⟩ [] none false }]

def c9fallbackMessage : Message :=
  { remote_id := some "leak", server_id := none, from_ := "",
    body := ⟨"", ""⟩, timestamp := 0, is_read := false, is_edited := false,
    is_delivered := false, is_transient := false, is_encrypted := false,
    reactions := [], attachments := [], mentions := [] }

def c9reduced : Message :=
  ((reducedEntry c9evs "!!gen-0001").getD none).getD c9fallbackMessage

theorem claim_c9_synthesized_id_hidden_witness :
    reducedEntry c9evs "!!gen-0001" = some (some c9reduced) ∧
      c9reduced.remote_id = none :=
  ⟨by decide,
    claim_c9_synthesized_id_hidden c9evs "!!gen-0001" c9reduced (by decide)
      (by decide)⟩

/-! ### Claim C4: `TargetedPayload::try_from`
(`domain/messaging/models/message_like.rs`) -/

/-- The `Payload` enum of `message_like.rs` (lines 92–109). Note: this enum
has no `Error` variant. -/
inductive Payload where
  | correction (body : String) (attachments : List Attachment)
  | deliveryReceipt
  | readReceipt
  | message (body : String) (attachments : List Attachment)
  | reaction (emojis : List Emoji)
  | retraction
deriving Repr, DecidableEq

/-- Observable view of one wire message stanza: exactly the accessors that
`TargetedPayload::try_from` consults (prose-xmpp
`stanza/message/message.rs`). The stanza error is kept as its rendered
text; OOB attachments are kept already converted, since their conversion is
opaque to the claim. -/
structure Stanza where
  error : Option String
  reactions : Option (MessageId × List Emoji)
  fastening : Option (MessageId × Bool)
  replace : Option MessageId
  body : Option String
  received_marker : Option MessageId
  displayed_marker : Option MessageId
  oob_attachments : List Attachment
deriving Repr, DecidableEq

/-- The parser's intermediate result: an optional target plus a payload. -/
structure TargetedPayload where
  target : Option MessageId
  payload : Payload
deriving Repr, DecidableEq

/-- `TargetedPayload::try_from` (lines 230–308 of `message_like.rs`);
`none` models the `Err(NoPayload)` rejection. Precedence: error element,
reactions, retracting fastening, correction-with-body, received marker,
displayed marker, plain body. -/
def TargetedPayload.tryFrom (m : Stanza) : Option TargetedPayload :=
  match m.error with
  | some err =>
    some { target := none, payload := .message ("Error: " ++ err) [] }
  | none =>
    match m.reactions with
    | some (id, emojis) =>
      some { target := some id, payload := .reaction emojis }
    | none =>
      match m.fastening with
      | some (id, true) => some { target := some id, payload := .retraction }
      | _ =>
        match m.replace, m.body with
        | some replace_id, some body =>
          some
            { target := some replace_id
              payload := .correction body m.oob_attachments }
        | _, _ =>
          match m.received_marker with
          | some id =>
            some { target := some id, payload := .deliveryReceipt }
          | none =>
            match m.displayed_marker with
            | some id => some { target := some id, payload := .readReceipt }
            | none =>
              match m.body with
              | some body =>
                some
                  { target := none
                    payload := .message body m.oob_attachments }
              | none => none

/-- Modelled from the spec: the `MessageLikePayload` variant list of §3,
which includes an `Error{message}` variant; the spec's §4.2 precedence
table says an error element parses to this variant. The parser that
produces it is not under `src/`; `src/` holds the `Payload` enum above,
which lacks the variant. -/
inductive SpecPayload where
  | message (body : String) (attachments : List Attachment)
  | correction (body : String) (attachments : List Attachment)
  | reaction (emojis : List Emoji)
  | retraction
  | deliveryReceipt
  | readReceipt
  | error (message : String)
deriving Repr, DecidableEq

/-- The canonical, name-for-name abstraction of the code's `Payload` enum
into the spec's payload variants. No code constructor maps to
`SpecPayload.error`, because the code enum has no such variant. -/
def absPayload : Payload → SpecPayload
  | .message body attachments => .message body attachments
  | .correction body attachments => .correction body attachments
  | .reaction emojis => .reaction emojis
  | .retraction => .retraction
  | .deliveryReceipt => .deliveryReceipt
  | .readReceipt => .readReceipt

/-- Whether a code payload corresponds to the spec's `Error` variant. -/
def isSpecError (p : Payload) : Bool :=
  match absPayload p with
  | .error _ => true
  | _ => false

def c4stanza : Stanza :=
  { error := some "forbidden", reactions := some ("m0", ["A"]),
    fastening := none, replace := none, body := some "hi",
    received_marker := none, displayed_marker := none,
    oob_attachments := [] }

/-- C4 counterexample: on a stanza carrying an error element, the parser in
`src/` produces the `Message` variant with body `"Error: <text>"`, not an
`Error` variant — the `Payload` enum in `src/` has no `Error` variant at
all, so the claimed result is not produced. -/
theorem claim_c4_counterexample :
    TargetedPayload.tryFrom c4stanza =
        some { target := none, payload := .message "Error: forbidden" [] } ∧
      (TargetedPayload.tryFrom c4stanza).map
          (fun tp => absPayload tp.payload) ≠
        some (SpecPayload.error "Error: forbidden") ∧
      (TargetedPayload.tryFrom c4stanza).map
          (fun tp => isSpecError tp.payload) = some false := by
  refine ⟨rfl, ?_, rfl⟩
  intro h
  simp [TargetedPayload.tryFrom, c4stanza, absPayload] at h

/-- C4 amended: when the stanza carries an error element, the resulting
payload is the `Message` variant with body `"Error: <stanza-error text>"`
and no attachments, with no target; the error takes precedence over every
other payload kind. -/
theorem claim_c4_error_precedence (m : Stanza) (err : String)
    (herr : m.error = some err) :
    TargetedPayload.tryFrom m =
      some { target := none, payload := .message ("Error: " ++ err) [] } := by
  unfold TargetedPayload.tryFrom
  rw [herr]

theorem claim_c4_error_precedence_witness :
    c4stanza.error = some "forbidden" ∧
      TargetedPayload.tryFrom c4stanza =
        some
          { target := none
            payload := .message ("Error: " ++ "forbidden") [] } :=
  ⟨rfl, claim_c4_error_precedence c4stanza "forbidden" rfl⟩

/-! ### Claim C5: `MessageArchiveDomainService::catchup_room`
(`domain/messaging/services/impls/message_archive_domain_service.rs`) -/

/-- `DateTime::<Utc>::MIN_UTC` as seconds; an arbitrary fixed floor, every
real timestamp is at least this. -/
def minUtc : Int := -8334601228800

/-- `MAX_CATCHUP_DURATION_SECS = 60 * 60 * 24 * 5` (line 26). -/
def MAX_CATCHUP_DURATION_SECS : Int := 60 * 60 * 24 * 5

/-- `Option::max` with Rust's `Ord` on `Option`: `None` is smallest. -/
def optionMax : Option Int → Option Int → Option Int
  | none, b => b
  | some x, none => some x
  | some x, some y => some (max x y)

/-- A reference to a message: id plus timestamp (`MessageRef`). -/
structure MessageRef where
  id : MessageId
  timestamp : Int
deriving Repr, DecidableEq

/-- `LocalRoomSettings`: per-device per-room state. -/
structure LocalRoomSettings where
  last_catchup_time : Option Int
  last_read_message : Option MessageRef
deriving Repr, DecidableEq

/-- One archived message coming back from the archive service: its stanza
id and its parse outcome. Modelled from the spec: the outcome of
`MessageParser::parse_mam_message` (the parser itself is not under `src/`);
`none` models a parse failure, including `NoPayload`. -/
structure ArchivedMsg where
  id : StanzaId
  parsed : Option MessageLike
deriving Repr, DecidableEq

/-- `MessagePage`: a page of archived messages plus the end-of-archive
flag. -/
structure MessagePage where
  messages : List ArchivedMsg
  is_last : Bool
deriving Repr, DecidableEq

/-- `MessageLikePayload::is_message`. -/
def MessageLikePayload.is_message : MessageLikePayload → Bool
  | .message _ _ _ _ => true
  | _ => false

/-- `MessageLikePayload::is_error`. -/
def MessageLikePayload.is_error : MessageLikePayload → Bool
  | .error _ => true
  | _ => false

/-- `parse_message_page` (lines 146–190): parse each archived item, skip
failures and error payloads, count unread message events newer than the
last-read timestamp, and collect the rest in order. -/
def parseMessagePage (last_read_message_timestamp : Int)
    (page : MessagePage) : List MessageLike × Nat :=
  page.messages.foldl
    (fun acc archived =>
      match archived.parsed with
      | none => acc
      | some parsed_message =>
        if parsed_message.payload.is_error then acc
        else
          (acc.1 ++ [parsed_message],
            if parsed_message.payload.is_message ∧
                last_read_message_timestamp < parsed_message.timestamp then
              acc.2 + 1
            else acc.2))
    ([], 0)

/-- The `while !is_last_page` loop of `catchup_room` (lines 103–124): keep
requesting `load_messages_after(last_message_id, 100)` — the successive
responses are supplied as `pages` — until a page reports `is_last` or
yields no last message id. Returns the after-cursors used, the parsed
batch, and the unread count. -/
def catchupGo (last_read_message_timestamp : Int) :
    List MessagePage → Bool → Option StanzaId →
    List StanzaId × List MessageLike × Nat
  | _, true, _ => ([], [], 0)
  | _, false, none => ([], [], 0)
  | [], false, some _ => ([], [], 0)
  | page :: rest, false, some message_id =>
    ((message_id ::
        (catchupGo last_read_message_timestamp rest page.is_last
          (page.messages.getLast?.map (fun m => m.id))).1),
      ((parseMessagePage last_read_message_timestamp page).1 ++
        (catchupGo last_read_message_timestamp rest page.is_last
          (page.messages.getLast?.map (fun m => m.id))).2.1),
      ((parseMessagePage last_read_message_timestamp page).2 +
        (catchupGo last_read_message_timestamp rest page.is_last
          (page.messages.getLast?.map (fun m => m.id))).2.2))

/-- Observable outcome of `catchup_room`. -/
structure CatchupResult where
  sinceRequested : Option Int
  afterRequests : List StanzaId
  appended : List MessageLike
  unread_count : Nat
  settings : LocalRoomSettings
deriving Repr, DecidableEq

/-- `catchup_room` (lines 41–142): skip rooms without MAM; compute the
start time from the last catch-up time, the newest message received before
the connection, and the five-day floor; page forward until `is_last`;
append the batch and persist `last_catchup_time = now`. The first page is
the response to `load_messages_since`, `morePages` are the successive
responses to `load_messages_after`. -/
def catchup_room (is_mam_supported : Bool) (settings : LocalRoomSettings)
    (last_received_message_time : Option Int) (now : Int)
    (firstPage : MessagePage) (morePages : List MessagePage) :
    CatchupResult :=
  if is_mam_supported = false then
    { sinceRequested := none, afterRequests := [], appended := [],
      unread_count := 0, settings := settings }
  else
    let last_read_message_timestamp :=
      (settings.last_read_message.map (fun r => r.timestamp)).getD minUtc
    let catchup_since :=
      max
        ((optionMax settings.last_catchup_time
          last_received_message_time).getD minUtc)
        (now - MAX_CATCHUP_DURATION_SECS)
    let first := parseMessagePage last_read_message_timestamp firstPage
    let next := catchupGo last_read_message_timestamp morePages
      firstPage.is_last (firstPage.messages.getLast?.map (fun m => m.id))
    { sinceRequested := some catchup_since
      afterRequests := next.1
      appended := first.1 ++ next.2.1
      unread_count := first.2 + next.2.2
      settings := { settings with last_catchup_time := some now } }

theorem optionMax_getD (a b : Option Int)
    (ha : ∀ x, a = some x → minUtc ≤ x) (hb : ∀ x, b = some x → minUtc ≤ x) :
    (optionMax a b).getD minUtc = max (a.getD minUtc) (b.getD minUtc) := by
  cases a with
  | none =>
    cases b with
    | none => simp [optionMax]
    | some y =>
      have := hb y rfl
      simp [optionMax, max_eq_right this, max_eq_left this]
  | some x =>
    cases b with
    | none =>
      have := ha x rfl
      simp [optionMax, max_eq_left this]
    | some y => simp [optionMax]

/-- The after-request chain: one request per page as long as the previous
page was not the last one, each keyed by the previous page's newest stanza
id. -/
theorem catchupGo_requests (last_read_message_timestamp : Int) :
    ∀ (pages : List MessagePage) (prev : MessagePage),
      (∀ p, p ∈ prev :: pages → p.messages ≠ []) →
      ((catchupGo last_read_message_timestamp pages prev.is_last
            (prev.messages.getLast?.map (fun m => m.id))).1.length =
          min
            (((prev :: pages).map (fun p => p.is_last)).takeWhile
              (fun b => b = false)).length
            pages.length ∧
        ∀ j,
          j < (catchupGo last_read_message_timestamp pages prev.is_last
            (prev.messages.getLast?.map (fun m => m.id))).1.length →
          (catchupGo last_read_message_timestamp pages prev.is_last
            (prev.messages.getLast?.map (fun m => m.id))).1[j]? =
            ((prev :: pages)[j]?).bind
              (fun p => (p.messages.getLast?).map (fun m => m.id))) := by
  intro pages
  induction pages with
  | nil =>
    intro prev hne
    cases hlast : prev.is_last with
    | true => simp [catchupGo]
    | false =>
      obtain ⟨la, hla⟩ :=
        Option.isSome_iff_exists.mp
          (List.getLast?_isSome.mpr (hne prev (List.mem_cons_self _ _)))
      simp [catchupGo, hla]
  | cons page rest ih =>
    intro prev hne
    cases hlast : prev.is_last with
    | true => simp [catchupGo, hlast]
    | false =>
      obtain ⟨la, hla⟩ :=
        Option.isSome_iff_exists.mp
          (List.getLast?_isSome.mpr (hne prev (List.mem_cons_self _ _)))
      have hih := ih page
        (fun p hp => hne p (List.mem_cons_of_mem _ hp))
      constructor
      · simp only [hla, Option.map_some', catchupGo, List.length_cons,
          List.map_cons, hlast, List.takeWhile_cons]
        rw [hih.1]
        cases hpl : page.is_last with
        | true => simp [hpl]
        | false => simp [hpl]; omega
      · intro j hj
        simp only [hla, Option.map_some', catchupGo] at hj ⊢
        cases j with
        | zero => simp [hla]
        | succ j0 =>
          rw [List.getElem?_cons_succ, List.getElem?_cons_succ]
          apply hih.2
          simpa using Nat.lt_of_succ_lt_succ (by simpa using hj)

/-- C5: with MAM supported, `catchup_room` requests archive history since
the maximum of the last successful catch-up time, the newest message
received before the connection opened, and `now − 5 days`; it then pages
forward with `load_messages_after` until the archive reports `is_last`
(one request per non-final page, keyed by the previous page's newest stanza
id); and on success it sets `last_catchup_time` to the engine's current
time, leaving `last_read_message` untouched. -/
theorem claim_c5_catchup_room (settings : LocalRoomSettings)
    (last_received_message_time : Option Int) (now : Int)
    (firstPage : MessagePage) (morePages : List MessagePage)
    (hlc : ∀ x, settings.last_catchup_time = some x → minUtc ≤ x)
    (hlr : ∀ x, last_received_message_time = some x → minUtc ≤ x)
    (hne : ∀ p, p ∈ firstPage :: morePages → p.messages ≠ []) :
    (catchup_room true settings last_received_message_time now firstPage
          morePages).sinceRequested =
        some (max
          (max (settings.last_catchup_time.getD minUtc)
            (last_received_message_time.getD minUtc))
          (now - MAX_CATCHUP_DURATION_SECS)) ∧
      (catchup_room true settings last_received_message_time now firstPage
          morePages).settings.last_catchup_time = some now ∧
      (catchup_room true settings last_received_message_time now firstPage
          morePages).settings.last_read_message =
        settings.last_read_message ∧
      (catchup_room true settings last_received_message_time now firstPage
          morePages).afterRequests.length =
        min
          (((firstPage :: morePages).map (fun p => p.is_last)).takeWhile
            (fun b => b = false)).length
          morePages.length ∧
      ∀ j,
        j < (catchup_room true settings last_received_message_time now
          firstPage morePages).afterRequests.length →
        (catchup_room true settings last_received_message_time now firstPage
            morePages).afterRequests[j]? =
          ((firstPage :: morePages)[j]?).bind
            (fun p => (p.messages.getLast?).map (fun m => m.id)) := by
  have hreq := catchupGo_requests
    ((settings.last_read_message.map (fun r => r.timestamp)).getD minUtc)
    morePages firstPage hne
  refine ⟨?_, rfl, rfl, hreq.1, hreq.2⟩
  show some _ = _
  rw [optionMax_getD _ _ hlc hlr]

def c5settings : LocalRoomSettings :=
  { last_catchup_time := some 100, last_read_message := some ⟨"m", 50⟩ }

def c5parsed1 : MessageLike :=
  { id := ⟨"x1"⟩, stanza_id := some "a1", target := none, to_ := none,
    from_ := "b@prose.org", timestamp := 999000,
    payload := .message ⟨"Hi", "Hi", []⟩ [] none false }

def c5page1 : MessagePage :=
  { messages := [⟨"a1", some c5parsed1⟩], is_last := false }

def c5page2 : MessagePage :=
  { messages := [⟨"a2", none⟩], is_last := true }

theorem claim_c5_catchup_room_witness :
    (catchup_room true c5settings (some 200) 1000000 c5page1
          [c5page2]).sinceRequested = some 568000 ∧
      (catchup_room true c5settings (some 200) 1000000 c5page1
          [c5page2]).settings.last_catchup_time = some 1000000 ∧
      (catchup_room true c5settings (some 200) 1000000 c5page1
          [c5page2]).afterRequests = ["a1"] := by
  have h := claim_c5_catchup_room c5settings (some 200) 1000000 c5page1
    [c5page2]
    (by intro x hx; cases hx; decide)
    (by intro x hx; cases hx; decide)
    (by intro p hp; fin_cases hp <;> decide)
  refine ⟨?_, h.2.1, by decide⟩
  rw [h.1]
  norm_num [c5settings, MAX_CATCHUP_DURATION_SECS]

/-! ### Claim C7: `Room::mark_as_read` and `Room::update_synced_settings`
(`app/services/room.rs`) -/

/-- Modelled from the spec (§3): `SyncedRoomSettings` carries
`last_read_message` and `encryption_enabled`; the struct itself is not
under `src/`, only its uses in `room.rs` are. -/
structure SyncedRoomSettings where
  last_read_message : Option MessageRef
  encryption_enabled : Bool
deriving Repr, DecidableEq

/-- The observable state `mark_as_read` touches: the synced settings slot,
the persisted-settings calls issued, the dispatched client events, and the
needs-statistics flag. -/
structure RoomState where
  settings : SyncedRoomSettings
  saved_settings : List SyncedRoomSettings
  events : List String
  needs_update_statistics : Bool
deriving Repr, DecidableEq

/-- `Room::update_synced_settings` (lines 783–807 of `room.rs`): run the
handler on a clone, compare with the original under the lock, store and
persist only when changed. -/
def update_synced_settings (st : RoomState)
    (handler : SyncedRoomSettings → SyncedRoomSettings) : RoomState :=
  let updated_settings := handler st.settings
  if updated_settings = st.settings then st
  else
    { st with
      settings := updated_settings
      saved_settings := st.saved_settings ++ [updated_settings] }

/-- The closure `mark_as_read` hands to `update_synced_settings`
(lines 423–433 of `room.rs`). -/
def mark_as_read_handler (message_ref : MessageRef)
    (settings : SyncedRoomSettings) : SyncedRoomSettings :=
  if settings.last_read_message = some message_ref then settings
  else { settings with last_read_message := some message_ref }

/-- The `updated_message_ids` the closure collects. -/
def mark_as_read_updated_ids (message_ref : MessageRef)
    (settings : SyncedRoomSettings) : List MessageId :=
  if settings.last_read_message = some message_ref then []
  else
    (match settings.last_read_message with
      | some former_message_ref => [former_message_ref.id]
      | none => []) ++ [message_ref.id]

/-- `Room::mark_as_read` (lines 412–445 of `room.rs`): `last_message` is
the repo's last message reference; no last message means an early return.
When nothing changed, no statistics refresh is scheduled and no
`SidebarChanged` event is dispatched. -/
def mark_as_read (last_message : Option MessageRef) (st : RoomState) :
    RoomState :=
  match last_message with
  | none => st
  | some message_ref =>
    let st2 := update_synced_settings st (mark_as_read_handler message_ref)
    let updated_message_ids := mark_as_read_updated_ids message_ref
      st.settings
    if updated_message_ids.isEmpty then st2
    else
      { st2 with
        needs_update_statistics := true
        events := st2.events ++ ["SidebarChanged"] }

/-- C7: when the repo's last message already equals the synced
`last_read_message`, `mark_as_read` performs no settings write, no
persistence and emits no event (the state is unchanged); applying
`mark_as_read` twice with the same last message equals applying it once;
and the copy-on-write settings update stores and persists only when the
handler changed the clone. -/
theorem claim_c7_mark_as_read_idempotent (st : RoomState)
    (message_ref : MessageRef)
    (halready : st.settings.last_read_message = some message_ref) :
    mark_as_read (some message_ref) st = st ∧
      (∀ (last_message : Option MessageRef) (st0 : RoomState),
        mark_as_read last_message (mark_as_read last_message st0) =
          mark_as_read last_message st0) ∧
      (∀ (st0 : RoomState)
        (handler : SyncedRoomSettings → SyncedRoomSettings),
        (handler st0.settings = st0.settings →
          update_synced_settings st0 handler = st0) ∧
        (handler st0.settings ≠ st0.settings →
          (update_synced_settings st0 handler).settings =
              handler st0.settings ∧
            (update_synced_settings st0 handler).saved_settings =
              st0.saved_settings ++ [handler st0.settings])) := by
  have hnoop : ∀ (st1 : RoomState) (r : MessageRef),
      st1.settings.last_read_message = some r →
      mark_as_read (some r) st1 = st1 := by
    intro st1 r h1
    unfold mark_as_read update_synced_settings mark_as_read_handler
      mark_as_read_updated_ids
    simp [h1]
  refine ⟨hnoop st message_ref halready, ?_, ?_⟩
  · intro last_message st0
    match last_message with
    | none => rfl
    | some r =>
      by_cases h0 : st0.settings.last_read_message = some r
      · rw [hnoop st0 r h0, hnoop st0 r h0]
      · apply hnoop
        have hchanged :
            mark_as_read_handler r st0.settings ≠ st0.settings := by
          unfold mark_as_read_handler
          rw [if_neg h0]
          intro heq
          apply h0
          rw [← heq]
        have hne2 :
            ({ last_read_message := some r,
                encryption_enabled := st0.settings.encryption_enabled } :
              SyncedRoomSettings) ≠ st0.settings := by
          intro heq
          apply h0
          rw [← heq]
        cases hlr : st0.settings.last_read_message with
        | none =>
          simp [mark_as_read, update_synced_settings, mark_as_read_handler,
            mark_as_read_updated_ids, h0, hne2, hlr]
        | some former =>
          have hfr : ¬ former = r := by
            intro h
            apply h0
            rw [hlr, h]
          simp [mark_as_read, update_synced_settings, mark_as_read_handler,
            mark_as_read_updated_ids, h0, hne2, hlr, hfr]
  · intro st0 handler
    constructor
    · intro heq
      unfold update_synced_settings
      rw [if_pos heq]
    · intro hne
      unfold update_synced_settings
      rw [if_neg hne]
      exact ⟨rfl, rfl⟩

def c7settings : SyncedRoomSettings :=
  { last_read_message := some ⟨"m7", 70⟩, encryption_enabled := false }

def c7state : RoomState :=
  { settings := c7settings, saved_settings := [], events := [],
    needs_update_statistics := false }

theorem claim_c7_mark_as_read_idempotent_witness :
    c7state.settings.last_read_message = some ⟨"m7", 70⟩ ∧
      mark_as_read (some ⟨"m7", 70⟩) c7state = c7state :=
  ⟨by decide,
    (claim_c7_mark_as_read_idempotent c7state ⟨"m7", 70⟩ (by decide)).1⟩

/-! ### Claim C8: `Room::toggle_reaction_to_message`
(`app/services/room.rs`, lines 308–341) -/

/-- `Message::toggle_reaction` (lines 51–69 of `message.rs`): find the
first reaction with the emoji; if none, append a fresh reaction for the
user; else toggle the user's membership in its author list (removing the
first occurrence, or appending). -/
def toggleFind (user_id : ParticipantId) (emoji : Emoji) :
    List Reaction → Option (List Reaction)
  | [] => none
  | r :: rest =>
    if r.emoji = emoji then
      some
        ((if user_id ∈ r.from_ then
            { r with from_ := eraseFirst r.from_ user_id }
          else { r with from_ := r.from_ ++ [user_id] }) :: rest)
    else
      match toggleFind user_id emoji rest with
      | some rest2 => some (r :: rest2)
      | none => none

def Message.toggle_reaction (m : Message) (user_id : ParticipantId)
    (emoji : Emoji) : Message :=
  match toggleFind user_id emoji m.reactions with
  | some reactions2 => { m with reactions := reactions2 }
  | none =>
    { m with
      reactions := m.reactions ++ [{ emoji := emoji, from_ := [user_id] }] }

/-- `RoomId`: a one-to-one chat partner or a MUC room. -/
inductive RoomId where
  | user (id : String)
  | muc (id : String)
deriving Repr, DecidableEq

/-- The wire call `toggle_reaction_to_message` dispatches. -/
inductive ReactionDispatch where
  | react_to_chat_message (room : String) (id : MessageId)
      (all_emojis : List Emoji)
  | react_to_muc_message (room : String) (stanza_id : StanzaId)
      (all_emojis : List Emoji)
deriving Repr, DecidableEq

/-- `Room::toggle_reaction_to_message`: load the log slice for `id` from
the repo (`repo_messages`), reduce, take the last reduced message, toggle
the local user's reaction, and dispatch keyed by client id for user rooms
or by server id for MUC rooms; `Except.error` models the synchronous
failure paths (nothing is sent). -/
def toggle_reaction_to_message (room_id : RoomId) (account : ParticipantId)
    (repo_messages : List MessageLike) (id : MessageId) (emoji : Emoji) :
    Except String ReactionDispatch :=
  match (Message.reducing_messages repo_messages).getLast? with
  | none => .error ("No message with id " ++ id)
  | some message0 =>
    let message := message0.toggle_reaction account emoji
    let all_emojis := reactionsFromM message account
    match room_id with
    | .user room => .ok (.react_to_chat_message room id all_emojis)
    | .muc room =>
      match message.server_id with
      | none =>
        .error "Cannot react to MUC message for which we do not have a StanzaId."
      | some stanza_id =>
        .ok (.react_to_muc_message room stanza_id all_emojis)

theorem toggle_reaction_server_id (m : Message) (user_id : ParticipantId)
    (emoji : Emoji) :
    (m.toggle_reaction user_id emoji).server_id = m.server_id := by
  unfold Message.toggle_reaction
  cases toggleFind user_id emoji m.reactions <;> rfl

/-- C8: the wire reaction is keyed by the client message id for user
(one-to-one) rooms and by the server id for MUC rooms; for a MUC room whose
reduced target message has no server id, the call fails synchronously with
an error and dispatches nothing. -/
theorem claim_c8_reaction_dispatch_keying (room : String)
    (account : ParticipantId) (repo_messages : List MessageLike)
    (id : MessageId) (emoji : Emoji) (message0 : Message)
    (hm : (Message.reducing_messages repo_messages).getLast? =
      some message0) :
    (toggle_reaction_to_message (.user room) account repo_messages id
        emoji =
      .ok (.react_to_chat_message room id
        (reactionsFromM (message0.toggle_reaction account emoji)
          account))) ∧
      (∀ stanza_id, message0.server_id = some stanza_id →
        toggle_reaction_to_message (.muc room) account repo_messages id
            emoji =
          .ok (.react_to_muc_message room stanza_id
            (reactionsFromM (message0.toggle_reaction account emoji)
              account))) ∧
      (message0.server_id = none →
        toggle_reaction_to_message (.muc room) account repo_messages id
            emoji =
          .error
            "Cannot react to MUC message for which we do not have a StanzaId.") := by
  refine ⟨?_, ?_, ?_⟩
  · unfold toggle_reaction_to_message
    rw [hm]
  · intro stanza_id hsid
    unfold toggle_reaction_to_message
    rw [hm]
    simp only [toggle_reaction_server_id, hsid]
  · intro hsid
    unfold toggle_reaction_to_message
    rw [hm]
    simp only [toggle_reaction_server_id, hsid]

def c8repo : List MessageLike :=
  [{ id := ⟨"m8"⟩, stanza_id := none, target := none, to_ := none,
      from_ := "b@prose.org", timestamp := 0,
      payload := .message ⟨"Hey", "Hey", []⟩ [] none false }]

def c8fallbackMessage : Message :=
  { remote_id := none, server_id := none, from_ := "", body := ⟨"", ""⟩,
    timestamp := 0, is_read := false, is_edited := false,
    is_delivered := false, is_transient := false, is_encrypted := false,
    reactions := [], attachments := [], mentions := [] }

def c8reduced : Message :=
  ((Message.reducing_messages c8repo).getLast?).getD c8fallbackMessage

theorem claim_c8_reaction_dispatch_keying_witness :
    (Message.reducing_messages c8repo).getLast? = some c8reduced ∧
      c8reduced.server_id = none ∧
      toggle_reaction_to_message (.muc "room@muc") "a@prose.org" c8repo
          "m8" "A" =
        .error
          "Cannot react to MUC message for which we do not have a StanzaId." ∧
      toggle_reaction_to_message (.user "b@prose.org") "a@prose.org" c8repo
          "m8" "A" =
        .ok (.react_to_chat_message "b@prose.org" "m8"
          (reactionsFromM (c8reduced.toggle_reaction "a@prose.org" "A")
            "a@prose.org")) :=
  have h := claim_c8_reaction_dispatch_keying "room@muc" "a@prose.org"
    c8repo "m8" "A" c8reduced (by decide)
  have h2 := claim_c8_reaction_dispatch_keying "b@prose.org" "a@prose.org"
    c8repo "m8" "A" c8reduced (by decide)
  ⟨by decide, by decide, h.2.2 (by decide), h2.1⟩

/-! ### Claims C6 and C10: `EncryptionDomainService`
(`domain/encryption/services/impls/encryption_domain_service.rs`) -/

/-- `KEY_SIZE` (line 55). -/
def KEY_SIZE : Nat := 16

/-- `MAC_SIZE` (line 56). -/
def MAC_SIZE : Nat := 16

abbrev DeviceId := Nat
abbrev UserId := String

/-- Modelled from the spec (§3): one wrapped key of an `EncryptedPayload` —
recipient device id, opaque key data, pre-key flag. The struct itself is
not under `src/`. -/
structure EncryptionKey where
  recipient_device_id : DeviceId
  data : List Nat
  is_pre_key : Bool
deriving Repr, DecidableEq

/-- Modelled from the spec (§3): the wire-level `EncryptedPayload` —
sender device id, AEAD nonce, wrapped keys, ciphertext without the MAC. -/
structure EncryptedPayload where
  device_id : DeviceId
  iv : List Nat
  keys : List EncryptionKey
  payload : List Nat
deriving Repr, DecidableEq

/-- `EncryptedPayload::get_key`: the key addressed to the given device
(spec §4.4 step 1 of decryption). -/
def EncryptedPayload.get_key (p : EncryptedPayload)
    (device_id : DeviceId) : Option EncryptionKey :=
  p.keys.find? (fun k => k.recipient_device_id = device_id)

/-- One stored pre-key (`PreKeyRecord`): id in `[1,100]` plus opaque key
material. -/
structure PreKey where
  id : Nat
  data : List Nat
deriving Repr, DecidableEq

/-- `generate_and_publish_missing_pre_keys` (lines 456–510): collect the
stored pre-key ids, compute the missing ids among `1..=100`, and if any are
missing generate exactly those (via `gen`), persist them, and republish the
bundle with its pre-keys sorted by id. Modelled from the spec for the repo
link: the local device bundle's `pre_keys` are the stored pre-keys.
Returns the stored pre-keys after the call and the published bundle
pre-keys (`none` = nothing republished). -/
def generate_and_publish_missing_pre_keys (gen : Nat → List Nat)
    (stored : List PreKey) : List PreKey × Option (List PreKey) :=
  let pre_key_ids := stored.map (fun k => k.id)
  let missing_pre_key_ids :=
    (List.range' 1 100).filter (fun idx => ¬ idx ∈ pre_key_ids)
  if missing_pre_key_ids.isEmpty then (stored, none)
  else
    let missing_pre_keys :=
      missing_pre_key_ids.map (fun i => { id := i, data := gen i : PreKey })
    let stored2 := stored ++ missing_pre_keys
    (stored2,
      some (List.insertionSort (fun a b => a.id ≤ b.id) stored2))

/-- `decrypt_payload` (lines 535–593), with the cryptographic primitives as
parameters: select the key addressed to the local device, unwrap
`DEK‖MAC`, check its size, AEAD-decrypt `ciphertext‖MAC`, decode UTF-8,
and — only when the used key was flagged `is_pre_key` — run pre-key
replenishment. The session-repair side effect of the failure path and the
completing key-transport message are outside this model. Returns the
decryption outcome plus the pre-key state and republished bundle. -/
def decrypt_payload (local_device_id : DeviceId) (stored : List PreKey)
    (gen : Nat → List Nat)
    (decrypt_key : List Nat → Bool → Option (List Nat))
    (aead_decrypt : List Nat → List Nat → List Nat → Option (List Nat))
    (utf8 : List Nat → Option String) (payload : EncryptedPayload) :
    Except String String × (List PreKey × Option (List PreKey)) :=
  match payload.get_key local_device_id with
  | none => (.error "NotEncryptedForThisDevice", (stored, none))
  | some key =>
    match decrypt_key key.data key.is_pre_key with
    | none => (.error "CryptoFailed", (stored, none))
    | some dek_and_mac =>
      if dek_and_mac.length ≠ KEY_SIZE + MAC_SIZE then
        (.error "Invalid DEK and MAC size", (stored, none))
      else
        match aead_decrypt (dek_and_mac.take KEY_SIZE) payload.iv
          (payload.payload ++ (dek_and_mac.drop KEY_SIZE).take MAC_SIZE) with
        | none => (.error "CryptoFailed", (stored, none))
        | some bytes =>
          match utf8 bytes with
          | none => (.error "Utf8Error", (stored, none))
          | some message =>
            if key.is_pre_key then
              (.ok message, generate_and_publish_missing_pre_keys gen stored)
            else (.ok message, (stored, none))

theorem claim_c6_helper_mem_append (stored : List PreKey)
    (gen : Nat → List Nat)
    (hid : ∀ k, k ∈ stored → 1 ≤ k.id ∧ k.id ≤ 100)
    (hnd : (stored.map (fun k => k.id)).Nodup) :
    ((stored ++
        ((List.range' 1 100).filter
            (fun idx => ¬ idx ∈ stored.map (fun k => k.id))).map
          (fun i => { id := i, data := gen i : PreKey })).map
        (fun k => k.id)).Perm (List.range' 1 100) := by
  rw [List.map_append, List.map_map]
  have hmapid :
      (((List.range' 1 100).filter
          (fun idx => ¬ idx ∈ stored.map (fun k => k.id))).map
        ((fun k => k.id) ∘ fun i => { id := i, data := gen i : PreKey })) =
      ((List.range' 1 100).filter
        (fun idx => ¬ idx ∈ stored.map (fun k => k.id))) := by
    rw [List.map_congr_left (fun a _ => rfl)]
    exact List.map_id _
  rw [hmapid]
  have hnodup2 : ((List.range' 1 100).filter
      (fun idx => ¬ idx ∈ stored.map (fun k => k.id))).Nodup :=
    (List.nodup_range' _ _).filter _
  refine (List.perm_ext_iff_of_nodup ?_ (List.nodup_range' _ _)).mpr ?_
  · refine List.Nodup.append hnd hnodup2 ?_
    intro x hx hx2
    have := List.of_mem_filter hx2
    simp only [decide_eq_true_eq] at this
    exact this hx
  · intro a
    constructor
    · intro ha
      rcases List.mem_append.mp ha with h1 | h2
      · obtain ⟨k, hk, rfl⟩ := List.mem_map.mp h1
        have := hid k hk
        rw [List.mem_range'_1]
        omega
      · exact List.mem_of_mem_filter h2
    · intro ha
      by_cases hin : a ∈ stored.map (fun k => k.id)
      · exact List.mem_append_left _ hin
      · refine List.mem_append_right _ (List.mem_filter.mpr ⟨ha, ?_⟩)
        simpa using hin

/-- C6: pre-key replenishment restores the stored set — and hence the
republished bundle — to exactly the ids `1..100`: it generates only the
missing ids, persists them, republishes the bundle sorted by id, does
nothing when nothing is missing, and is triggered by a successfully
processed key flagged `is_pre_key`. -/
theorem claim_c6_pre_key_replenishment (gen : Nat → List Nat)
    (stored : List PreKey) (local_device_id : DeviceId)
    (hid : ∀ k, k ∈ stored → 1 ≤ k.id ∧ k.id ≤ 100)
    (hnd : (stored.map (fun k => k.id)).Nodup) :
    (((generate_and_publish_missing_pre_keys gen stored).1.map
        (fun k => k.id)).Perm (List.range' 1 100)) ∧
      (∀ pub,
        (generate_and_publish_missing_pre_keys gen stored).2 = some pub →
        ((pub.map (fun k => k.id)).Perm (List.range' 1 100)) ∧
          (pub.map (fun k => k.id)).Sorted (· ≤ ·)) ∧
      ((∀ i, i ∈ List.range' 1 100 → i ∈ stored.map (fun k => k.id)) →
        generate_and_publish_missing_pre_keys gen stored =
          (stored, none)) ∧
      (∀ decrypt_key aead_decrypt utf8 (payload : EncryptedPayload)
        (key : EncryptionKey) (message : String),
        payload.get_key local_device_id = some key →
        (decrypt_payload local_device_id stored gen decrypt_key
            aead_decrypt utf8 payload).1 = .ok message →
        (decrypt_payload local_device_id stored gen decrypt_key
            aead_decrypt utf8 payload).2 =
          (if key.is_pre_key then
            generate_and_publish_missing_pre_keys gen stored
          else (stored, none))) := by
  have hperm := claim_c6_helper_mem_append stored gen hid hnd
  refine ⟨?_, ?_, ?_, ?_⟩
  · unfold generate_and_publish_missing_pre_keys
    by_cases hmiss : ((List.range' 1 100).filter
        (fun idx => ¬ idx ∈ stored.map (fun k => k.id))).isEmpty
    · rw [if_pos hmiss]
      rw [List.isEmpty_iff] at hmiss
      have hall : ∀ a, a ∈ List.range' 1 100 →
          a ∈ stored.map (fun k => k.id) := by
        intro a ha
        by_contra hno
        have : a ∈ ((List.range' 1 100).filter
            (fun idx => ¬ idx ∈ stored.map (fun k => k.id))) :=
          List.mem_filter.mpr ⟨ha, by simpa using hno⟩
        rw [hmiss] at this
        simp at this
      refine (List.perm_ext_iff_of_nodup hnd (List.nodup_range' _ _)).mpr ?_
      intro a
      constructor
      · intro ha
        obtain ⟨k, hk, rfl⟩ := List.mem_map.mp ha
        have := hid k hk
        rw [List.mem_range'_1]
        omega
      · exact hall a
    · rw [if_neg hmiss]
      exact hperm
  · intro pub hpub
    unfold generate_and_publish_missing_pre_keys at hpub
    by_cases hmiss : ((List.range' 1 100).filter
        (fun idx => ¬ idx ∈ stored.map (fun k => k.id))).isEmpty
    · rw [if_pos hmiss] at hpub
      simp at hpub
    · rw [if_neg hmiss] at hpub
      have hpub2 := (Option.some_inj.mp hpub).symm
      subst hpub2
      letI : IsTotal PreKey (fun a b => a.id ≤ b.id) :=
        ⟨fun a b => le_total a.id b.id⟩
      letI : IsTrans PreKey (fun a b => a.id ≤ b.id) :=
        ⟨fun _ _ _ h1 h2 => le_trans h1 h2⟩
      constructor
      · exact ((List.perm_insertionSort _ _).map _).trans hperm
      · have hs := List.sorted_insertionSort (fun a b => a.id ≤ b.id)
          (stored ++ ((List.range' 1 100).filter
              (fun idx => ¬ idx ∈ stored.map (fun k => k.id))).map
            (fun i => { id := i, data := gen i : PreKey }))
        unfold List.Sorted at hs ⊢
        rw [List.pairwise_map]
        exact hs
  · intro hall
    unfold generate_and_publish_missing_pre_keys
    rw [if_pos]
    rw [List.isEmpty_iff, List.filter_eq_nil_iff]
    intro a ha
    simpa using hall a ha
  · intro decrypt_key aead_decrypt utf8 payload key message hkey hok
    unfold decrypt_payload at hok ⊢
    simp only [hkey] at hok ⊢
    cases hdk : decrypt_key key.data key.is_pre_key with
    | none => simp [hdk] at hok
    | some dek_and_mac =>
      simp only [hdk] at hok ⊢
      by_cases hlen : dek_and_mac.length ≠ KEY_SIZE + MAC_SIZE
      · rw [if_pos hlen] at hok; simp at hok
      · rw [if_neg hlen] at hok ⊢
        cases had : aead_decrypt (dek_and_mac.take KEY_SIZE) payload.iv
            (payload.payload ++ (dek_and_mac.drop KEY_SIZE).take MAC_SIZE)
          with
        | none => simp [had] at hok
        | some bytes =>
          simp only [had] at hok ⊢
          cases hu : utf8 bytes with
          | none => simp [hu] at hok
          | some msg2 =>
            simp only [hu] at hok ⊢
            cases hpk : key.is_pre_key with
            | true => simp [hpk]
            | false => simp [hpk]

def c6payload : EncryptedPayload :=
  { device_id := 9, iv := [],
    keys := [{ recipient_device_id := 5, data := [1], is_pre_key := true }],
    payload := [] }

theorem claim_c6_pre_key_replenishment_witness :
    (((generate_and_publish_missing_pre_keys (fun i => [i]) []).1.map
        (fun k => k.id)).Perm (List.range' 1 100)) ∧
      ((generate_and_publish_missing_pre_keys (fun i => [i]) []).2 ≠
        none) ∧
      (decrypt_payload 5 [] (fun i => [i])
          (fun _ _ => some (List.replicate 32 0)) (fun _ _ _ => some [104])
          (fun _ => some "h") c6payload).2 =
        generate_and_publish_missing_pre_keys (fun i => [i]) [] := by
  have h := claim_c6_pre_key_replenishment (fun i => [i]) [] 5
    (by intro k hk; simp at hk) (by simp)
  have htrig := h.2.2.2 (fun _ _ => some (List.replicate 32 0))
    (fun _ _ _ => some [104]) (fun _ => some "h") c6payload
    { recipient_device_id := 5, data := [1], is_pre_key := true } "h"
    (by decide) rfl
  refine ⟨h.1, ?_, by rw [htrig]; rfl⟩
  unfold generate_and_publish_missing_pre_keys
  rw [if_neg]
  · exact Option.some_ne_none _
  · rw [List.isEmpty_iff]
    intro hemp
    have h1 : (1 : ℕ) ∈ List.range' 1 100 := by
      rw [List.mem_range'_1]
      omega
    have hmem : (1 : ℕ) ∈ ((List.range' 1 100).filter
        (fun idx => ¬ idx ∈ ([] : List PreKey).map (fun k => k.id))) :=
      List.mem_filter.mpr ⟨h1, by simp⟩
    rw [hemp] at hmem
    simp at hmem

/-! ### Claim C10: `EncryptionDomainService::encrypt_message`
(lines 131–249) -/

/-- Modelled from the spec (§3/§4.4): per-peer-device trust. -/
inductive Trust where
  | trusted
  | undecided
  | untrusted
deriving Repr, DecidableEq

/-- Modelled from the spec (§3): per-peer-device session state; only the
fields `encrypt_message` consults. -/
structure Session where
  device_id : DeviceId
  trust : Trust
  is_active : Bool
deriving Repr, DecidableEq

/-- `Session::is_trusted_or_undecided`. -/
def Session.is_trusted_or_undecided (s : Session) : Bool :=
  match s.trust with
  | .untrusted => false
  | _ => true

/-- `get_active_and_trusted_device_ids` (lines 753–764): the device ids of
the active, trusted-or-undecided sessions. -/
def get_active_and_trusted_device_ids (sessions : List Session) :
    List DeviceId :=
  sessions.filterMap
    (fun s =>
      if s.is_active ∧ s.is_trusted_or_undecided then some s.device_id
      else none)

/-- The key-assembly part of `encrypt_message` (lines 180–249):
`our_sessions` are the session repo's sessions for the current user,
`their_sessions` for the recipient; `encrypt_key` models
`encryption_service.encrypt_key` and returns the wrapped data and pre-key
flag for a target `(user, device)`. The sender's own device ids are
filtered against the local device id; the recipient's are not. -/
def encrypt_message (current_user_id recipient_id : UserId)
    (local_device_id : DeviceId)
    (our_sessions their_sessions : List Session)
    (encrypt_key : UserId → DeviceId → List Nat × Bool)
    (iv ciphertext : List Nat) : Except String EncryptedPayload :=
  let their_active := their_sessions.filter (fun s => s.is_active)
  if their_active.isEmpty then .error "NoDevices"
  else
    let their_active_device_ids := their_active.filterMap
      (fun s =>
        if s.is_trusted_or_undecided then some (recipient_id, s.device_id)
        else none)
    let our_active_device_ids :=
      get_active_and_trusted_device_ids our_sessions
    let targets :=
      (our_active_device_ids.filter
          (fun device_id => device_id ≠ local_device_id)).map
        (fun device_id => (current_user_id, device_id))
        ++ their_active_device_ids
    .ok
      { device_id := local_device_id
        iv := iv
        keys := targets.map
          (fun t =>
            { recipient_device_id := t.2
              data := (encrypt_key t.1 t.2).1
              is_pre_key := (encrypt_key t.1 t.2).2 })
        payload := ciphertext }

def c10theirSessions : List Session :=
  [{ device_id := 1, trust := .trusted, is_active := true }]

def c10encKey : UserId → DeviceId → List Nat × Bool := fun _ _ => ([0], false)

/-- C10 counterexample: the claim fails as stated. With local device id 1
and a recipient whose (only) active trusted session carries the same
numeric device id 1, the successful encryption contains a key whose
recipient device id equals the local device id: recipient-side keys are
not filtered against the local device. -/
theorem claim_c10_counterexample :
    encrypt_message "alice@prose.org" "bob@prose.org" 1 []
        c10theirSessions c10encKey [] [] =
      .ok
        { device_id := 1
          iv := []
          keys :=
            [{ recipient_device_id := 1, data := [0], is_pre_key := false }]
          payload := [] } ∧
      (encrypt_message "alice@prose.org" "bob@prose.org" 1 []
          c10theirSessions c10encKey [] []).map
        (fun p => p.keys.all (fun k => k.recipient_device_id ≠ 1)) =
      Except.ok false :=
  ⟨rfl, rfl⟩

/-- C10 amended: the sender-side portion of the key list never addresses
the local device — so whenever none of the recipient's active
trusted-or-undecided sessions carries the sender's local device id, every
key of a successfully produced `EncryptedPayload` has a recipient device
id different from the local device id. -/
theorem claim_c10_no_self_addressed_key (current_user_id recipient_id :
    UserId) (local_device_id : DeviceId)
    (our_sessions their_sessions : List Session)
    (encrypt_key : UserId → DeviceId → List Nat × Bool)
    (iv ciphertext : List Nat) (payload : EncryptedPayload)
    (hrec : ∀ s, s ∈ their_sessions → s.is_active = true →
      s.is_trusted_or_undecided = true → s.device_id ≠ local_device_id)
    (hok : encrypt_message current_user_id recipient_id local_device_id
      our_sessions their_sessions encrypt_key iv ciphertext =
      .ok payload) :
    ∀ k, k ∈ payload.keys → k.recipient_device_id ≠ local_device_id := by
  unfold encrypt_message at hok
  by_cases hemp : (their_sessions.filter (fun s => s.is_active)).isEmpty
  · rw [if_pos hemp] at hok
    simp at hok
  · rw [if_neg hemp] at hok
    have hpay := (Except.ok.inj hok).symm
    subst hpay
    intro k hk
    simp only [List.mem_map] at hk
    obtain ⟨t, ht, rfl⟩ := hk
    rcases List.mem_append.mp ht with hour | htheir
    · obtain ⟨device_id, hd, rfl⟩ := List.mem_map.mp hour
      have := List.of_mem_filter hd
      simpa using this
    · obtain ⟨s, hs, hcond⟩ := List.mem_filterMap.mp htheir
      by_cases htr : s.is_trusted_or_undecided = true
      · rw [if_pos htr] at hcond
        have ht2 := (Option.some_inj.mp hcond).symm
        subst ht2
        have hs2 := List.mem_filter.mp hs
        exact hrec s hs2.1 (by simpa using hs2.2) htr
      · rw [if_neg htr] at hcond
        simp at hcond

def c10theirSessions2 : List Session :=
  [{ device_id := 2, trust := .trusted, is_active := true },
    { device_id := 3, trust := .undecided, is_active := true }]

def c10ourSessions : List Session :=
  [{ device_id := 1, trust := .trusted, is_active := true },
    { device_id := 4, trust := .trusted, is_active := true }]

def c10payload : EncryptedPayload :=
  { device_id := 1, iv := [],
    keys := [{ recipient_device_id := 4, data := [0], is_pre_key := false },
      { recipient_device_id := 2, data := [0], is_pre_key := false },
      { recipient_device_id := 3, data := [0], is_pre_key := false }],
    payload := [] }

theorem claim_c10_no_self_addressed_key_witness :
    encrypt_message "alice@prose.org" "bob@prose.org" 1 c10ourSessions
        c10theirSessions2 c10encKey [] [] = .ok c10payload ∧
      ({ recipient_device_id := 4, data := [0], is_pre_key := false } :
          EncryptionKey).recipient_device_id ≠ 1 :=
  ⟨rfl,
    claim_c10_no_self_addressed_key "alice@prose.org" "bob@prose.org" 1
      c10ourSessions c10theirSessions2 c10encKey [] [] c10payload
      (by intro s hs h1 h2; fin_cases hs <;> decide) rfl
      { recipient_device_id := 4, data := [0], is_pre_key := false }
      (by decide)⟩

end Prose
